import Mathlib

/-!
Verification development for the shipyard ECS core: a shallow embedding of the
sparse-set component storage (`src/sparse_set/mod.rs`), the atomic borrow cell
(`src/atomic_refcell.rs`), the storage registry (`src/all_storages/mod.rs`) and
the cross-world entity move (`src/move_entity.rs`), together with proofs of the
invariants and functional-correctness properties stated in the specification.

Machine integers are modelled as `Nat` with explicit `% 2^w` where wraparound
matters (the 32-bit tracking clock, the 64-bit borrow-state word).  Vectors are
modelled as `List`, the paged sparse array as a total function from entity
index to `Option EntityId` (a missing bucket and a `dead` slot both read as
`none`; in the source both fail the generation comparison the same way).
-/

set_option maxHeartbeats 1000000

/-- Modelled from the spec: `entity_id.rs` is not part of the sources under
verification.  The spec describes an `EntityId` as a 64-bit value packed from
an index (slot) and a generation; the packing itself is irrelevant to the
claims, so the two components are kept as separate naturals.  The reserved
`DEAD` value only ever appears inside sparse-array slots and is modelled by
`none` there. -/
structure EntityId where
  index : Nat
  gen : Nat
deriving DecidableEq, Repr

/-- Pointwise update of a sparse-array slot (`SparseArray::get_mut_unchecked`
followed by a write in the source). -/
def updSlot (sp : Nat → Option EntityId) (k : Nat) (v : Option EntityId) :
    Nat → Option EntityId :=
  fun j => if j = k then v else sp j

/-- Overwrite the position bits of the slot at `k` (`EntityId::copy_index` /
`EntityId::set_index` applied to a sparse slot): the slot's generation is kept,
and a `DEAD` slot stays dead (`none` maps to `none`). -/
def copyIndexAt (sp : Nat → Option EntityId) (k : Nat) (pos : Nat) :
    Nat → Option EntityId :=
  fun j => if j = k then (sp k).map (fun sl => ⟨pos, sl.gen⟩) else sp j

/-- `SparseSet<T>` from `src/sparse_set/mod.rs`.  `sparse` maps an entity index
to the `EntityId` stored in the sparse array (position in `index`, generation
in `gen`); `none` models a missing bucket or a `DEAD` slot. -/
structure SparseSet (α : Type) where
  sparse : Nat → Option EntityId
  dense : List EntityId
  data : List α
  last_insert : Nat
  last_modified : Nat
  insertion_data : List Nat
  modification_data : List Nat
  deletion_data : List (EntityId × Nat × α)
  removal_data : List (EntityId × Nat)
  is_tracking_insertion : Bool
  is_tracking_modification : Bool
  is_tracking_deletion : Bool
  is_tracking_removal : Bool

/-- `SparseSet::new`. -/
def SparseSet.new {α : Type} : SparseSet α where
  sparse := fun _ => none
  dense := []
  data := []
  last_insert := 0
  last_modified := 0
  insertion_data := []
  modification_data := []
  deletion_data := []
  removal_data := []
  is_tracking_insertion := false
  is_tracking_modification := false
  is_tracking_deletion := false
  is_tracking_removal := false

/-- `SparseSet::index_of`: look up through `sparse`, validate the generation. -/
def SparseSet.index_of {α : Type} (s : SparseSet α) (entity : EntityId) : Option Nat :=
  (s.sparse entity.index).bind fun se =>
    if entity.gen = se.gen then some se.index else none

/-- `SparseSet::contains`. -/
def SparseSet.contains {α : Type} (s : SparseSet α) (entity : EntityId) : Bool :=
  (s.index_of entity).isSome

/-- `SparseSet::private_get`. -/
def SparseSet.private_get {α : Type} (s : SparseSet α) (entity : EntityId) : Option α :=
  (s.index_of entity).bind fun i => s.data[i]?

/-- `SparseSet::insert` (lines 160-212 of `src/sparse_set/mod.rs`).  The
`allocate_at` call is a no-op in this model since missing buckets already read
as `none`.  Returns the old component (only on an exact generation match)
paired with the new storage. -/
def SparseSet.insert {α : Type} (s : SparseSet α) (entity : EntityId) (value : α)
    (current : Nat) : Option α × SparseSet α :=
  match s.sparse entity.index with
  | none =>
      (none,
        { s with
          sparse := updSlot s.sparse entity.index (some ⟨s.dense.length, entity.gen⟩)
          insertion_data :=
            if s.is_tracking_insertion then s.insertion_data ++ [current]
            else s.insertion_data
          modification_data :=
            if s.is_tracking_modification then s.modification_data ++ [0]
            else s.modification_data
          dense := s.dense ++ [entity]
          data := s.data ++ [value] })
  | some se =>
      if se.gen ≤ entity.gen then
        ((if entity.gen = se.gen then s.data[se.index]? else none),
          { s with
            data := s.data.set se.index value
            sparse := updSlot s.sparse entity.index (some ⟨se.index, entity.gen⟩)
            modification_data :=
              if s.is_tracking_modification then s.modification_data.set se.index current
              else s.modification_data
            dense := s.dense.set se.index ⟨entity.index, entity.gen⟩ })
      else (none, s)

/-- `Vec::swap_remove`: replace element `i` with the last element and pop.
The source panics when `i` is out of bounds; every call site below is in
bounds, the guard only keeps the model total. -/
def listSwapRemove {α : Type} (l : List α) (i : Nat) : List α :=
  if i < l.length then
    match l.getLast? with
    | some last => (l.set i last).dropLast
    | none => l
  else l

/-- `SparseSet::actual_remove` (lines 242-278): swap-remove at the recorded
position, kill the sparse slot, repoint the slot of the moved last element
(`copy_index` keeps that slot's generation), and return the component exactly
when the generations match. -/
def SparseSet.actual_remove {α : Type} (s : SparseSet α) (entity : EntityId) :
    Option α × SparseSet α :=
  match s.sparse entity.index with
  | none => (none, s)
  | some se =>
      if se.gen ≤ entity.gen then
        let sparse1 := updSlot s.sparse entity.index none
        let dense1 := listSwapRemove s.dense se.index
        let sparse2 :=
          if se.index < dense1.length then
            copyIndexAt sparse1 (dense1.getD se.index ⟨0, 0⟩).index se.index
          else sparse1
        ((if entity.gen = se.gen then s.data[se.index]? else none),
          { s with
            sparse := sparse2
            dense := dense1
            insertion_data :=
              if s.is_tracking_insertion then listSwapRemove s.insertion_data se.index
              else s.insertion_data
            modification_data :=
              if s.is_tracking_modification then listSwapRemove s.modification_data se.index
              else s.modification_data
            data := listSwapRemove s.data se.index })
      else (none, s)

/-- `SparseSet::dyn_remove` (lines 231-240). -/
def SparseSet.dyn_remove {α : Type} (s : SparseSet α) (entity : EntityId)
    (current : Nat) : Option α × SparseSet α :=
  let r := s.actual_remove entity
  if r.1.isSome && r.2.is_tracking_removal then
    (r.1, { r.2 with removal_data := r.2.removal_data ++ [(entity, current)] })
  else r

/-- `SparseSet::dyn_delete` (lines 217-228). -/
def SparseSet.dyn_delete {α : Type} (s : SparseSet α) (entity : EntityId)
    (current : Nat) : Bool × SparseSet α :=
  match s.actual_remove entity with
  | (some component, s1) =>
      (true,
        if s1.is_tracking_deletion then
          { s1 with deletion_data := s1.deletion_data ++ [(entity, current, component)] }
        else s1)
  | (none, s1) => (false, s1)

/-- `SparseSet::track_insertion` (lines 333-342): idempotent; retroactively
pads the parallel buffer with zeros. -/
def SparseSet.track_insertion {α : Type} (s : SparseSet α) : SparseSet α :=
  if s.is_tracking_insertion then s
  else
    { s with
      is_tracking_insertion := true
      insertion_data := s.insertion_data ++ List.replicate s.dense.length 0 }

/-- `SparseSet::track_modification` (lines 344-353). -/
def SparseSet.track_modification {α : Type} (s : SparseSet α) : SparseSet α :=
  if s.is_tracking_modification then s
  else
    { s with
      is_tracking_modification := true
      modification_data := s.modification_data ++ List.replicate s.dense.length 0 }

/-- `SparseSet::private_clear` (lines 549-569): kill every sparse slot of a
dense entry, clear `insertion_data`, drain `dense`/`data` into the deletion
log when deletion tracking is on.  Note that the source does *not* clear
`modification_data` here. -/
def SparseSet.private_clear {α : Type} (s : SparseSet α) (current : Nat) : SparseSet α :=
  { s with
    sparse := s.dense.foldl (fun sp id => updSlot sp id.index none) s.sparse
    insertion_data := []
    deletion_data :=
      if s.is_tracking_deletion then
        s.deletion_data ++ (s.dense.zip s.data).map fun p => (p.1, current, p.2)
      else s.deletion_data
    dense := []
    data := [] }

/-- `SparseSet::private_drain` (lines 572-597): log removals when tracked,
kill every sparse slot, empty `dense` and `data`; the drained components are
returned.  The source does not touch `insertion_data`/`modification_data`. -/
def SparseSet.private_drain {α : Type} (s : SparseSet α) (current : Nat) :
    List α × SparseSet α :=
  (s.data,
    { s with
      removal_data :=
        if s.is_tracking_removal then
          s.removal_data ++ s.dense.map (fun e => (e, current))
        else s.removal_data
      sparse := s.dense.foldl (fun sp id => updSlot sp id.index none) s.sparse
      dense := []
      data := [] })

/-! ### The 32-bit tracking clock -/

/-- `u32::MAX / 2`, the half range used by the wraparound-safe comparison. -/
def u32Half : Nat := (2 ^ 32 - 1) / 2

/-- `u32` wrapping subtraction. -/
def u32sub (a b : Nat) : Nat := (a % 2 ^ 32 + (2 ^ 32 - b % 2 ^ 32)) % 2 ^ 32

/-- Modelled from the spec: `tracking.rs` is not part of the sources under
verification.  Per the spec the tracking clock "uses within-half-the-counter-
range arithmetic to tolerate wraparound", the timestamp clears "retain exactly
those entries whose tick is younger than the cutoff under wrap-safe
comparison", and scenario S6 requires `clear_all_deleted_older_than(t+1)` to
drop an entry at tick `t`.  Accordingly `is_track_within_bounds timestamp last
current` holds when `timestamp` lies in the half-range window `[last, current]`
(both wrapping distances at most `u32::MAX / 2`). -/
def is_track_within_bounds (timestamp last current : Nat) : Bool :=
  decide (u32sub timestamp last ≤ u32Half) && decide (u32sub current timestamp ≤ u32Half)

/-- `SparseSet::clear_all_deleted_older_than_timestamp` (lines 300-304). -/
def SparseSet.clear_all_deleted_older_than_timestamp {α : Type} (s : SparseSet α)
    (timestamp : Nat) : SparseSet α :=
  { s with
    deletion_data :=
      s.deletion_data.filter fun e =>
        is_track_within_bounds timestamp (u32sub e.2.1 u32Half) e.2.1 }

/-- `SparseSet::clear_all_removed_older_than_timestamp` (lines 310-313). -/
def SparseSet.clear_all_removed_older_than_timestamp {α : Type} (s : SparseSet α)
    (timestamp : Nat) : SparseSet α :=
  { s with
    removal_data :=
      s.removal_data.filter fun e =>
        is_track_within_bounds timestamp (u32sub e.2 u32Half) e.2 }

/-! ### `SparseSet::sort_unstable_by` -/

/-- The comparison on indices used to sort the transform vector: `i ≤ j` when
`compare(data[i], data[j]) != Greater`.  Out-of-range indices (never produced
by `List.range data.length`) compare as `true`. -/
def sortLe {α : Type} (cmp : α → α → Ordering) (data : List α) (i j : Nat) : Bool :=
  match data[i]?, data[j]? with
  | some a, some b =>
      match cmp a b with
      | Ordering.gt => false
      | _ => true
  | _, _ => true

/-- The cycle-chasing loop `while pos < i { pos = transform[pos] }`.  The
source's loop terminates in at most `transform.len()` steps on the transforms
produced by sorting; the fuel makes the model total. -/
def chasePos (transform : List Nat) : Nat → Nat → Nat → Nat
  | 0, pos, _ => pos
  | fuel + 1, pos, i =>
      if pos < i then chasePos transform fuel (transform.getD pos 0) i else pos

/-- `Vec::swap` on two positions of a list (no-op out of bounds; the source
only swaps in-bounds positions). -/
def swapIdx {α : Type} (l : List α) (i j : Nat) : List α :=
  match l[i]?, l[j]? with
  | some a, some b => (l.set i b).set j a
  | _, _ => l

/-- One iteration of the in-place permutation application loop of
`sort_unstable_by`: chase the cycle, then swap `dense` and `data` at `i` and
the final position. -/
def swapStep (transform : List Nat) (st : List EntityId × List α) (i : Nat) :
    List EntityId × List α :=
  let pos := chasePos transform transform.length (transform.getD i 0) i
  (swapIdx st.1 i pos, swapIdx st.2 i pos)

/-- The final loop of `sort_unstable_by`: `for (i, id) in dense.iter()
.enumerate() { sparse[id].set_index(i) }`.  `set_index` keeps the slot's
generation; on a `DEAD` slot it leaves the slot dead, hence the `none` case
leaves the model's slot unchanged. -/
def rewriteSparse : (Nat → Option EntityId) → List EntityId → Nat → (Nat → Option EntityId)
  | sp, [], _ => sp
  | sp, d :: rest, start => rewriteSparse (copyIndexAt sp d.index start) rest (start + 1)

/-- `SparseSet::sort_unstable_by` (lines 434-461).  `Vec::sort_unstable_by`
from the Rust standard library is modelled by `List.insertionSort` — only the
guarantee that the sorted transform is a permutation of `0..len` is relied
upon. -/
def SparseSet.sort_unstable_by {α : Type} (cmp : α → α → Ordering) (s : SparseSet α) :
    SparseSet α :=
  let transform :=
    List.insertionSort (fun i j => sortLe cmp s.data i j = true) (List.range s.dense.length)
  let st := (List.range transform.length).foldl (swapStep transform) (s.dense, s.data)
  { s with dense := st.1, data := st.2, sparse := rewriteSparse s.sparse st.1 0 }

/-! ### Invariants and reachability of `SparseSet` -/

/-- The two-sided sparse-set invariant: every dense entry's sparse slot mirrors
its position and generation, and every live sparse slot points back to a dense
entry with the matching index and generation.  The first component is the
mirror invariant stated by the spec; the second is the strengthening needed
for preservation. -/
def SparseSet.Inv {α : Type} (s : SparseSet α) : Prop :=
  (∀ i d, s.dense[i]? = some d → s.sparse d.index = some ⟨i, d.gen⟩) ∧
  (∀ k se, s.sparse k = some se →
    ∃ d, s.dense[se.index]? = some d ∧ d.index = k ∧ d.gen = se.gen)

/-- States reachable from the empty sparse set by `insert`, `dyn_remove`,
`dyn_delete` and `sort_unstable_by` with arbitrary arguments. -/
inductive SSReach (α : Type) : SparseSet α → Prop where
  | empty : SSReach α SparseSet.new
  | insert (s : SparseSet α) (e : EntityId) (v : α) (c : Nat) :
      SSReach α s → SSReach α (s.insert e v c).2
  | remove (s : SparseSet α) (e : EntityId) (c : Nat) :
      SSReach α s → SSReach α (s.dyn_remove e c).2
  | delete (s : SparseSet α) (e : EntityId) (c : Nat) :
      SSReach α s → SSReach α (s.dyn_delete e c).2
  | sort (s : SparseSet α) (cmp : α → α → Ordering) :
      SSReach α s → SSReach α (s.sort_unstable_by cmp)

/-! ### The atomic borrow cell (`src/atomic_refcell.rs`)

The `(send, is_sync) = (None, true)` policy arm is embedded (the payload is
`Send + Sync`, so the cell is "accessible from any thread, shared xor
unique").  The 64-bit atomic word is a `Nat` taken modulo `2^64`; on values
below `2^64` the test `new & HIGH_BIT != 0` is exactly `HIGH_BIT ≤ new`. -/

/-- `HIGH_BIT = !(usize::MAX >> 1)` on a 64-bit platform. -/
def HIGH_BIT : Nat := 2 ^ 63

/-- `MAX_FAILED_BORROWS = HIGH_BIT + (HIGH_BIT >> 1)`. -/
def MAX_FAILED_BORROWS : Nat := HIGH_BIT + HIGH_BIT / 2

/-- Modulus of the 64-bit state word. -/
def USIZE_MOD : Nat := 2 ^ 64

/-- Outcome of a borrow attempt: the `Ok` constructors of `Borrow`, the
`error::Borrow` variants, and the two fatal exits of `try_recover`. -/
inductive BorrowOutcome where
  | okShared
  | okUnique
  | errShared
  | errUnique
  | errWrongThread
  | errMultipleThreads
  | panicTooManyShared
  | exitTooManyFailed
deriving DecidableEq, Repr

/-- `BorrowState::try_recover` (lines 155-170), entered with the word already
incremented to `new`: at exactly `HIGH_BIT` it decrements and panics; at or
above `MAX_FAILED_BORROWS` it exits the process; otherwise it swaps the word
back down and reports `error::Borrow::Shared`.  The compare-exchange back to
`new - 1` always succeeds in this sequential model. -/
def try_recover (new : Nat) : BorrowOutcome × Nat :=
  if new = HIGH_BIT then (BorrowOutcome.panicTooManyShared, new - 1)
  else if MAX_FAILED_BORROWS ≤ new then (BorrowOutcome.exitTooManyFailed, new)
  else (BorrowOutcome.errShared, new - 1)

/-- `BorrowState::try_borrow` for the `(None, true)` policy (lines 71-80):
`fetch_add(1)`, then fail through `try_recover` when the high bit is set. -/
def try_borrow (s : Nat) : BorrowOutcome × Nat :=
  let new := (s + 1) % USIZE_MOD
  if HIGH_BIT ≤ new then try_recover new else (BorrowOutcome.okShared, new)

/-- `BorrowState::try_borrow_mut` for the `(None, _)` policy (lines 125-134):
`compare_exchange(0 → HIGH_BIT)`. -/
def try_borrow_mut (s : Nat) : BorrowOutcome × Nat :=
  if s = 0 then (BorrowOutcome.okUnique, HIGH_BIT) else (BorrowOutcome.errUnique, s)

/-- `Drop for Borrow`, shared arm (line 198): `fetch_sub(1)` (wrapping). -/
def releaseShared (s : Nat) : Nat := (s + (USIZE_MOD - 1)) % USIZE_MOD

/-- `Drop for Borrow`, unique arm (line 202): `store(0)`. -/
def releaseUnique (_ : Nat) : Nat := 0

/-- Configurations of the borrow protocol reachable from the idle cell:
`BorrowReach n u s` means `n` shared borrows and (when `u`) one unique borrow
are outstanding and the state word is `s`.  Transitions are granted borrows
and drops of outstanding borrows; a failed attempt leaves the word unchanged
(or kills the process) and therefore needs no constructor. -/
inductive BorrowReach : Nat → Bool → Nat → Prop where
  | base : BorrowReach 0 false 0
  | grantShared {n : Nat} {s : Nat} :
      BorrowReach n false s → (try_borrow s).1 = BorrowOutcome.okShared →
      BorrowReach (n + 1) false (try_borrow s).2
  | grantUnique {n : Nat} {s : Nat} :
      BorrowReach n false s → (try_borrow_mut s).1 = BorrowOutcome.okUnique →
      BorrowReach n true (try_borrow_mut s).2
  | dropShared {n : Nat} {u : Bool} {s : Nat} :
      BorrowReach (n + 1) u s → BorrowReach n u (releaseShared s)
  | dropUnique {n : Nat} {s : Nat} :
      BorrowReach n true s → BorrowReach n false (releaseUnique s)

/-! ### The entity allocator and the world model

`entities.rs`, `world.rs`'s borrow plumbing and the sparse-set glue modules
(`add_component.rs`, `remove.rs`, ...) are not part of the sources under
verification; the definitions below model them from the spec (§4.3
EntityAllocator, §4.4 StorageRegistry, §4.8 cross-world move), while
`delete_entity`, `strip`, `add_component`, `add_entity` and `move_entity`
follow `src/all_storages/mod.rs` and `src/move_entity.rs` directly. -/

/-- Modelled from the spec: the entity allocator's slot table.  `gens` holds
each slot's current generation; `free` is the free list (a stack of slot
indexes).  Generations are unbounded naturals, so the source's
saturate-instead-of-wrap guard never fires. -/
structure Entities where
  gens : List Nat
  free : List Nat
deriving DecidableEq, Repr

/-- Modelled from the spec: "`is_alive(id)`: slot exists and its generation
equals `id`'s". -/
def Entities.is_alive (es : Entities) (id : EntityId) : Bool :=
  match es.gens[id.index]? with
  | some g => g == id.gen
  | none => false

/-- Modelled from the spec: "`generate()`: pop a free slot, or extend the
table; return `(index, generation)`". -/
def Entities.generate (es : Entities) : EntityId × Entities :=
  match es.free with
  | i :: rest => (⟨i, es.gens.getD i 0⟩, ⟨es.gens, rest⟩)
  | [] => (⟨es.gens.length, 0⟩, ⟨es.gens ++ [0], []⟩)

/-- Modelled from the spec: "`delete(id)`: if the slot's generation equals
`id`'s, bump generation, push onto free list, return true; otherwise false"
(`Entities::delete_unchecked` at the `AllStorages::delete_entity` call site). -/
def Entities.delete (es : Entities) (id : EntityId) : Bool × Entities :=
  match es.gens[id.index]? with
  | some g =>
      if g = id.gen then (true, ⟨es.gens.set id.index (g + 1), id.index :: es.free⟩)
      else (false, es)
  | none => (false, es)

/-- Free-list well-formedness: free slots exist in the table. -/
def Entities.WF (es : Entities) : Prop := ∀ i ∈ es.free, i < es.gens.length

/-- The world: the entity storage plus the component storages of
`AllStorages`.  Storage identity is erased to a position in `storages` (all
component types share the value type `α`); `registry` is the cross-world move
registry (`comp_registry`), holding the storage ids registered at storage
creation; `counter` is the tracking clock. -/
structure World (α : Type) where
  entities : Entities
  storages : List (SparseSet α)
  registry : List Nat
  counter : Nat

/-- Apply `f` to storage `j` (no-op when the storage does not exist). -/
def World.updateStorage {α : Type} (w : World α) (j : Nat)
    (f : SparseSet α → SparseSet α) : World α :=
  match w.storages[j]? with
  | some s => { w with storages := w.storages.set j (f s) }
  | none => w

/-- Component lookup through a storage (`get` through a view). -/
def World.getComp {α : Type} (w : World α) (id : EntityId) (j : Nat) : Option α :=
  (w.storages[j]?).bind fun s => s.private_get id

/-- `AllStorages::add_component` (lines 447-459 of `src/all_storages/mod.rs`):
insert if the entity is alive, panic (`none`) otherwise.  The per-component
insertion of the missing `TupleAddComponent` glue is modelled from the spec
as a sparse-set `insert` at the current tick. -/
def World.addComponent {α : Type} (w : World α) (id : EntityId) (j : Nat) (v : α) :
    Option (World α) :=
  if w.entities.is_alive id then
    some { w.updateStorage j (fun s => (s.insert id v w.counter).2) with
           counter := w.counter + 1 }
  else none

/-- `AllStorages::add_entity` (lines 389-394): generate a fresh entity, then
insert its components. -/
def World.addEntity {α : Type} (w : World α) (comps : List (Nat × α)) :
    EntityId × World α :=
  let g := w.entities.generate
  (g.1,
    comps.foldl
      (fun acc jv =>
        { acc.updateStorage jv.1 (fun s => (s.insert g.1 jv.2 acc.counter).2) with
          counter := acc.counter + 1 })
      { w with entities := g.2 })

/-- `AllStorages::remove` for one storage; the missing `TupleRemove` glue is
modelled from the spec: "`remove(id, tick) -> Option<T>`" via `dyn_remove`. -/
def World.removeComponent {α : Type} (w : World α) (id : EntityId) (j : Nat) :
    Option α × World α :=
  match w.storages[j]? with
  | some s =>
      let r := s.dyn_remove id w.counter
      (r.1, { w with storages := w.storages.set j r.2, counter := w.counter + 1 })
  | none => (none, w)

/-- `AllStorages::delete_entity` (lines 252-265): kill the slot in the entity
storage and, when it was alive, `strip` (lines 286-292) the entity out of
every storage with one `get_current` tick. -/
def World.deleteEntity {α : Type} (w : World α) (id : EntityId) : Bool × World α :=
  let r := w.entities.delete id
  if r.1 then
    (true,
      { w with
        entities := r.2
        storages := w.storages.map fun s => (s.dyn_delete id w.counter).2
        counter := w.counter + 1 })
  else (false, w)

/-- Structural operations on a world, used to state temporal properties. -/
inductive WOp (α : Type) where
  | addEntity (comps : List (Nat × α))
  | addComponent (id : EntityId) (j : Nat) (v : α)
  | removeComponent (id : EntityId) (j : Nat)
  | deleteEntity (id : EntityId)

/-- Apply one operation (an `add_component` panic leaves the world as is:
the panicking program performs no further operations). -/
def applyWOp {α : Type} (w : World α) : WOp α → World α
  | WOp.addEntity comps => (w.addEntity comps).2
  | WOp.addComponent id j v => (w.addComponent id j v).getD w
  | WOp.removeComponent id j => (w.removeComponent id j).2
  | WOp.deleteEntity id => (w.deleteEntity id).2

/-- Apply a sequence of operations. -/
def applyWOps {α : Type} (w : World α) (ops : List (WOp α)) : World α :=
  ops.foldl applyWOp w

/-- `id` is stale in `w`: its slot's generation has moved past `id.gen` and
every storage's sparse slot at `id.index` records a strictly newer
generation. -/
def World.StaleAt {α : Type} (w : World α) (id : EntityId) : Prop :=
  id.index < w.entities.gens.length ∧
  id.gen < w.entities.gens.getD id.index 0 ∧
  ∀ s ∈ w.storages, ∀ se, s.sparse id.index = some se → id.gen < se.gen

/-! ### Cross-world entity move (`src/move_entity.rs`) -/

/-- `move_component` (lines 6-20): remove from the source storage; when a
component came out, `add_component` it onto the destination entity (which
panics — `none` — when that entity is not alive). -/
def move_component {α : Type} (source_entity : EntityId) (source : World α)
    (dest_entity : EntityId) (dest : World α) (j : Nat) :
    Option (World α × World α) :=
  let r := source.removeComponent source_entity j
  match r.1 with
  | some component =>
      match dest.addComponent dest_entity j component with
      | some d => some (r.2, d)
      | none => none
  | none => some (r.2, dest)

/-- `move_entity` (lines 93-110): allocate an empty entity in the destination
world, run the registered mover for every storage id in the source world's
component registry, then delete the entity in the source world and return the
new id. -/
def move_entity {α : Type} (entity : EntityId) (from_world to_world : World α) :
    Option (EntityId × World α × World α) :=
  let a := to_world.addEntity []
  match
    from_world.registry.foldl
      (fun acc j => acc.bind fun p => move_component entity p.1 a.1 p.2 j)
      (some (from_world, a.2))
  with
  | some p => some (a.1, (p.1.deleteEntity entity).2, p.2)
  | none => none

/-- Per-storage well-formedness against the entity table: parallel lengths and
sparse slots in bounds with generations never ahead of the allocator. -/
def SparseSet.StorageWF {α : Type} (s : SparseSet α) (es : Entities) : Prop :=
  s.dense.length = s.data.length ∧
  ∀ k se, s.sparse k = some se →
    se.index < s.data.length ∧ se.gen ≤ es.gens.getD k 0

/-- World well-formedness. -/
def World.WF {α : Type} (w : World α) : Prop :=
  w.entities.WF ∧ ∀ s ∈ w.storages, s.StorageWF w.entities

/-! ### Concrete example states used by the closed theorems -/

/-- A storage holding component `7` for entity `(index 0, generation 0)`. -/
def exStorage : SparseSet Nat := (SparseSet.new.insert ⟨0, 0⟩ 7 0).2

/-- A world owning one entity `(0, 0)` that carries component `42` in the
single registered storage. -/
def exWorldA : World Nat :=
  { entities := ⟨[0], []⟩
    storages := [(SparseSet.new.insert ⟨0, 0⟩ 42 0).2]
    registry := [0]
    counter := 1 }

/-- An empty world with one (empty) registered storage. -/
def exWorldB : World Nat :=
  { entities := ⟨[], []⟩
    storages := [SparseSet.new]
    registry := [0]
    counter := 0 }

/-- A storage whose deletion and removal logs hold one entry at tick 6. -/
def exLogStorage : SparseSet Nat :=
  { (SparseSet.new : SparseSet Nat) with
    deletion_data := [(⟨0, 0⟩, 6, 42)]
    removal_data := [(⟨0, 0⟩, 6)] }

/-- A storage whose slot at index 0 carries generation 1. -/
def exStorageG1 : SparseSet Nat := (SparseSet.new.insert ⟨0, 1⟩ 7 0).2

/-- Enable modification tracking, insert once, then `private_clear`. -/
def c2state : SparseSet Nat :=
  ((((SparseSet.new : SparseSet Nat).track_modification).insert ⟨0, 0⟩ 5 1).2).private_clear 2

/-- Enable insertion tracking, insert once, then `private_drain`. -/
def c2state2 : SparseSet Nat :=
  (((((SparseSet.new : SparseSet Nat).track_insertion).insert ⟨0, 0⟩ 5 1).2).private_drain 2).2

/-! ### List helper lemmas -/

theorem list_set_self {α : Type} (l : List α) (n : Nat) (h : n < l.length) :
    l.set n l[n] = l := by
  apply List.ext_getElem?
  intro i
  rw [List.getElem?_set]
  split
  · next heq =>
      subst heq
      exact (List.getElem?_eq_getElem h).symm
  · rfl

theorem listSwapRemove_length {α : Type} (l : List α) (i : Nat) (hi : i < l.length) :
    (listSwapRemove l i).length = l.length - 1 := by
  unfold listSwapRemove
  rw [if_pos hi]
  match hl : l.getLast? with
  | some last => simp [List.length_dropLast, List.length_set]
  | none =>
      rw [List.getLast?_eq_getElem?] at hl
      have : l.length - 1 < l.length := by omega
      rw [List.getElem?_eq_getElem this] at hl
      cases hl

theorem listSwapRemove_getElem? {α : Type} (l : List α) (i j : Nat) (hi : i < l.length) :
    (listSwapRemove l i)[j]? =
      if j < l.length - 1 then (if j = i then l[l.length - 1]? else l[j]?) else none := by
  unfold listSwapRemove
  rw [if_pos hi]
  match hl : l.getLast? with
  | some last =>
      simp only
      rw [List.getElem?_dropLast, List.length_set, List.getElem?_set]
      by_cases hj : j < l.length - 1
      · rw [if_pos hj, if_pos hj]
        by_cases hij : i = j
        · subst hij
          rw [if_pos rfl, if_pos rfl, if_pos hi]
          rw [List.getLast?_eq_getElem?] at hl
          exact hl.symm
        · rw [if_neg hij, if_neg fun h => hij h.symm]
      · rw [if_neg hj, if_neg hj]
  | none =>
      rw [List.getLast?_eq_getElem?] at hl
      have : l.length - 1 < l.length := by omega
      rw [List.getElem?_eq_getElem this] at hl
      cases hl

theorem cons_set_perm {α : Type} (t : List α) (j : Nat) (hj : j < t.length) (a : α) :
    List.Perm (t[j] :: t.set j a) (a :: t) := by
  induction t generalizing j with
  | nil => cases hj
  | cons b s ih =>
      cases j with
      | zero =>
          simp only [List.getElem_cons_zero, List.set_cons_zero]
          exact List.Perm.swap a b s
      | succ j' =>
          have hj' : j' < s.length := by simpa using hj
          simp only [List.getElem_cons_succ, List.set_cons_succ]
          exact ((List.Perm.swap b (s[j']) (s.set j' a)).trans
            (List.Perm.cons b (ih j' hj'))).trans (List.Perm.swap a b s)

theorem set_set_perm {α : Type} (l : List α) (i j : Nat) (hi : i < l.length)
    (hj : j < l.length) : List.Perm ((l.set i l[j]).set j l[i]) l := by
  induction l generalizing i j with
  | nil => cases hi
  | cons x t ih =>
      cases i with
      | zero =>
          cases j with
          | zero =>
              rw [List.set_set, List.getElem_cons_zero, List.set_cons_zero]
          | succ k =>
              have hk : k < t.length := by simpa using hj
              simp only [List.getElem_cons_zero, List.getElem_cons_succ,
                List.set_cons_zero, List.set_cons_succ]
              exact cons_set_perm t k hk x
      | succ m =>
          cases j with
          | zero =>
              have hm : m < t.length := by simpa using hi
              simp only [List.getElem_cons_zero, List.getElem_cons_succ,
                List.set_cons_succ, List.set_cons_zero]
              exact cons_set_perm t m hm x
          | succ k =>
              have hm : m < t.length := by simpa using hi
              have hk : k < t.length := by simpa using hj
              simp only [List.getElem_cons_succ, List.set_cons_succ]
              exact List.Perm.cons x (ih m k hm hk)

theorem swapIdx_perm {α : Type} (l : List α) (i j : Nat) :
    List.Perm (swapIdx l i j) l := by
  unfold swapIdx
  cases h1 : l[i]? with
  | none => exact List.Perm.refl l
  | some a =>
      cases h2 : l[j]? with
      | none => exact List.Perm.refl l
      | some b =>
          obtain ⟨hi, rfl⟩ := List.getElem?_eq_some.mp h1
          obtain ⟨hj, rfl⟩ := List.getElem?_eq_some.mp h2
          exact set_set_perm l i j hi hj

theorem foldl_swapStep_perm {α : Type} (transform : List Nat) (idxs : List Nat)
    (st : List EntityId × List α) :
    List.Perm (idxs.foldl (swapStep transform) st).1 st.1 := by
  induction idxs generalizing st with
  | nil => exact List.Perm.refl _
  | cons i rest ih =>
      simp only [List.foldl_cons]
      exact (ih (swapStep transform st i)).trans (swapIdx_perm _ _ _)

/-! ### Preservation of the sparse-set invariant -/

theorem inv_of_eq {α : Type} (s t : SparseSet α) (hd : t.dense = s.dense)
    (hs : t.sparse = s.sparse) (h : s.Inv) : t.Inv := by
  unfold SparseSet.Inv at h ⊢
  rw [hd, hs]
  exact h

theorem inv_nodup_index {α : Type} (s : SparseSet α) (h : s.Inv) :
    (s.dense.map EntityId.index).Nodup := by
  rw [List.nodup_iff_injective_get]
  intro a b hab
  have la : (a : Nat) < s.dense.length := by
    have := a.isLt; simpa using this
  have lb : (b : Nat) < s.dense.length := by
    have := b.isLt; simpa using this
  have ga := h.1 (a : Nat) (s.dense[(a : Nat)]) (List.getElem?_eq_getElem la)
  have gb := h.1 (b : Nat) (s.dense[(b : Nat)]) (List.getElem?_eq_getElem lb)
  have hix : (s.dense[(a : Nat)]).index = (s.dense[(b : Nat)]).index := by
    have h' := hab
    rw [List.get_eq_getElem, List.get_eq_getElem, List.getElem_map, List.getElem_map] at h'
    exact h'
  rw [hix, gb] at ga
  have h2 := Option.some.inj ga
  have hba : (b : Nat) = (a : Nat) := congrArg EntityId.index h2
  exact Fin.ext hba.symm

theorem rewriteSparse_not_mem (l : List EntityId) (sp : Nat → Option EntityId)
    (start k : Nat) (hk : k ∉ l.map EntityId.index) :
    rewriteSparse sp l start k = sp k := by
  induction l generalizing sp start with
  | nil => rfl
  | cons d rest ih =>
      rw [List.map_cons, List.mem_cons, not_or] at hk
      obtain ⟨hkd, hkr⟩ := hk
      unfold rewriteSparse
      rw [ih _ _ hkr]
      simp [copyIndexAt, hkd]

theorem rewriteSparse_pos (l : List EntityId) (sp : Nat → Option EntityId) (start : Nat)
    (H1 : ∀ d ∈ l, ∃ sl, sp d.index = some sl ∧ sl.gen = d.gen)
    (H2 : (l.map EntityId.index).Nodup) :
    ∀ i d, l[i]? = some d → rewriteSparse sp l start d.index = some ⟨start + i, d.gen⟩ := by
  induction l generalizing sp start with
  | nil => intro i d h; simp at h
  | cons d0 rest ih =>
      intro i d hd
      have hne : d0.index ∉ rest.map EntityId.index := by
        rw [List.map_cons] at H2
        exact (List.nodup_cons.mp H2).1
      obtain ⟨sl0, hsl0, hgen0⟩ := H1 d0 (List.mem_cons_self d0 rest)
      have H2' : (rest.map EntityId.index).Nodup := by
        rw [List.map_cons] at H2
        exact (List.nodup_cons.mp H2).2
      cases i with
      | zero =>
          have hdd : d0 = d := by simpa using hd
          subst hdd
          unfold rewriteSparse
          rw [rewriteSparse_not_mem rest _ _ _ hne]
          simp [copyIndexAt, hsl0, hgen0]
      | succ i' =>
          have hd' : rest[i']? = some d := by simpa using hd
          have H1' : ∀ e ∈ rest,
              ∃ sl, copyIndexAt sp d0.index start e.index = some sl ∧ sl.gen = e.gen := by
            intro e he
            obtain ⟨sl, hsl, hg⟩ := H1 e (List.mem_cons_of_mem _ he)
            have hne2 : e.index ≠ d0.index := fun hEq =>
              hne (hEq ▸ List.mem_map_of_mem EntityId.index he)
            exact ⟨sl, by unfold copyIndexAt; rw [if_neg hne2]; exact hsl, hg⟩
          have hres := ih _ (start + 1) H1' H2' i' d hd'
          have harith : start + 1 + i' = start + (i' + 1) := by omega
          rw [harith] at hres
          unfold rewriteSparse
          exact hres

theorem inv_insert {α : Type} (s : SparseSet α) (e : EntityId) (v : α) (c : Nat)
    (h : s.Inv) : (s.insert e v c).2.Inv := by
  obtain ⟨h1, h2⟩ := h
  unfold SparseSet.insert
  split
  · next hslot =>
      refine ⟨?_, ?_⟩
      · intro i d hd
        dsimp only at hd ⊢
        rw [List.getElem?_append] at hd
        by_cases hi : i < s.dense.length
        · rw [if_pos hi] at hd
          have hm := h1 i d hd
          have hne : d.index ≠ e.index := by
            intro hEq
            rw [hEq, hslot] at hm
            cases hm
          unfold updSlot
          rw [if_neg hne]
          exact hm
        · rw [if_neg hi] at hd
          cases hsub : i - s.dense.length with
          | zero =>
              rw [hsub] at hd
              have hde : e = d := by simpa using hd
              subst hde
              have hieq : i = s.dense.length := by omega
              subst hieq
              show updSlot s.sparse e.index (some ⟨s.dense.length, e.gen⟩) e.index
                = some ⟨s.dense.length, e.gen⟩
              unfold updSlot
              rw [if_pos rfl]
          | succ m =>
              rw [hsub] at hd
              simp at hd
      · intro k se hse
        dsimp only at hse ⊢
        unfold updSlot at hse
        by_cases hk : k = e.index
        · rw [if_pos hk] at hse
          obtain rfl := Option.some.inj hse
          refine ⟨e, ?_, hk.symm, rfl⟩
          show (s.dense ++ [e])[s.dense.length]? = some e
          rw [List.getElem?_append, if_neg (by omega)]
          simp
        · rw [if_neg hk] at hse
          obtain ⟨d', hd', hdi', hdg'⟩ := h2 k se hse
          have hb : se.index < s.dense.length := (List.getElem?_eq_some.mp hd').1
          exact ⟨d', by rw [List.getElem?_append, if_pos hb]; exact hd', hdi', hdg'⟩
  · next se hslot =>
      split
      · next hge =>
          obtain ⟨dOld, hdOld, hdi, hdg⟩ := h2 e.index se hslot
          have hpos : se.index < s.dense.length := (List.getElem?_eq_some.mp hdOld).1
          refine ⟨?_, ?_⟩
          · intro i d hd
            dsimp only at hd ⊢
            rw [List.getElem?_set] at hd
            by_cases hip : se.index = i
            · subst hip
              rw [if_pos rfl, if_pos hpos] at hd
              obtain rfl := Option.some.inj hd
              show updSlot s.sparse e.index (some ⟨se.index, e.gen⟩) e.index
                = some ⟨se.index, e.gen⟩
              unfold updSlot
              rw [if_pos rfl]
            · rw [if_neg hip] at hd
              have hm := h1 i d hd
              have hne : d.index ≠ e.index := by
                intro hEq
                rw [hEq, hslot] at hm
                have h3 := Option.some.inj hm
                exact hip (congrArg EntityId.index h3)
              unfold updSlot
              rw [if_neg hne]
              exact hm
          · intro k se' hse'
            dsimp only at hse' ⊢
            unfold updSlot at hse'
            by_cases hk : k = e.index
            · rw [if_pos hk] at hse'
              obtain rfl := Option.some.inj hse'
              refine ⟨⟨e.index, e.gen⟩, ?_, hk.symm, rfl⟩
              show (s.dense.set se.index ⟨e.index, e.gen⟩)[se.index]?
                = some ⟨e.index, e.gen⟩
              rw [List.getElem?_set, if_pos rfl, if_pos hpos]
            · rw [if_neg hk] at hse'
              obtain ⟨d', hd', hdi', hdg'⟩ := h2 k se' hse'
              refine ⟨d', ?_, hdi', hdg'⟩
              have hneq : se.index ≠ se'.index := by
                intro hEq
                rw [hEq, hd'] at hdOld
                have h3 := Option.some.inj hdOld
                exact hk (by rw [← hdi', h3, hdi])
              rw [List.getElem?_set, if_neg hneq]
              exact hd'
      · next hge => exact ⟨h1, h2⟩

theorem inv_actual_remove {α : Type} (s : SparseSet α) (e : EntityId)
    (h : s.Inv) : (s.actual_remove e).2.Inv := by
  obtain ⟨h1, h2⟩ := h
  unfold SparseSet.actual_remove
  split
  · next hslot => exact ⟨h1, h2⟩
  · next se hslot =>
      split
      · next hge =>
          obtain ⟨dOld, hdOld, hdi, hdg⟩ := h2 e.index se hslot
          have hpos : se.index < s.dense.length := (List.getElem?_eq_some.mp hdOld).1
          have hlen1 : (listSwapRemove s.dense se.index).length = s.dense.length - 1 :=
            listSwapRemove_length _ _ hpos
          by_cases hfix : se.index < s.dense.length - 1
          · -- the removed slot was not the last one: the moved element is repointed
            have hguard : se.index < (listSwapRemove s.dense se.index).length := by
              rw [hlen1]; exact hfix
            have hn1 : s.dense.length - 1 < s.dense.length := by omega
            obtain ⟨lastE, hlastE⟩ : ∃ x, s.dense[s.dense.length - 1]? = some x :=
              ⟨_, List.getElem?_eq_getElem hn1⟩
            have hD : (listSwapRemove s.dense se.index)[se.index]? = some lastE := by
              rw [listSwapRemove_getElem? _ _ _ hpos, if_pos hfix, if_pos rfl]
              exact hlastE
            have hgetD : (listSwapRemove s.dense se.index).getD se.index ⟨0, 0⟩ = lastE := by
              rw [List.getD_eq_getElem?_getD, hD]
              rfl
            have hlastMirror := h1 (s.dense.length - 1) lastE hlastE
            have hlastne : lastE.index ≠ e.index := by
              intro hEq
              rw [hEq, hslot] at hlastMirror
              have h3 := Option.some.inj hlastMirror
              have h4 : se.index = s.dense.length - 1 := congrArg EntityId.index h3
              omega
            refine ⟨?_, ?_⟩
            · intro i d hd
              dsimp only at hd ⊢
              rw [if_pos hguard, hgetD]
              rw [listSwapRemove_getElem? _ _ _ hpos] at hd
              by_cases hi : i < s.dense.length - 1
              · rw [if_pos hi] at hd
                by_cases hie : i = se.index
                · subst hie
                  rw [if_pos rfl, hlastE] at hd
                  have h3 := Option.some.inj hd
                  subst h3
                  simp only [copyIndexAt, if_pos rfl]
                  simp only [updSlot, if_neg hlastne]
                  rw [hlastMirror]
                  rfl
                · rw [if_neg hie] at hd
                  have hm := h1 i d hd
                  have hdnl : d.index ≠ lastE.index := by
                    intro hEq
                    rw [hEq, hlastMirror] at hm
                    have h3 := Option.some.inj hm
                    have h4 : s.dense.length - 1 = i := congrArg EntityId.index h3
                    omega
                  have hdne : d.index ≠ e.index := by
                    intro hEq
                    rw [hEq, hslot] at hm
                    have h3 := Option.some.inj hm
                    have h4 : se.index = i := congrArg EntityId.index h3
                    exact hie h4.symm
                  simp only [copyIndexAt, if_neg hdnl]
                  simp only [updSlot, if_neg hdne]
                  exact hm
              · rw [if_neg hi] at hd
                cases hd
            · intro k se' hse'
              dsimp only at hse' ⊢
              rw [if_pos hguard, hgetD] at hse'
              by_cases hkl : k = lastE.index
              · rw [hkl] at hse' ⊢
                simp only [copyIndexAt, if_pos rfl] at hse'
                simp only [updSlot, if_neg hlastne] at hse'
                rw [hlastMirror] at hse'
                have h3 : se' = ⟨se.index, lastE.gen⟩ := by
                  have := Option.some.inj hse'
                  exact this.symm
                subst h3
                exact ⟨lastE, hD, rfl, rfl⟩
              · simp only [copyIndexAt, if_neg hkl] at hse'
                by_cases hke : k = e.index
                · rw [hke] at hse'
                  simp only [updSlot, if_pos rfl] at hse'
                  cases hse'
                · simp only [updSlot, if_neg hke] at hse'
                  obtain ⟨d', hd', hdi', hdg'⟩ := h2 k se' hse'
                  have hb' : se'.index < s.dense.length := (List.getElem?_eq_some.mp hd').1
                  have hns : se'.index ≠ se.index := by
                    intro hEq
                    rw [hEq, hdOld] at hd'
                    have h3 := Option.some.inj hd'
                    exact hke (by rw [← hdi', ← h3, hdi])
                  have hnl : se'.index ≠ s.dense.length - 1 := by
                    intro hEq
                    rw [hEq, hlastE] at hd'
                    have h3 := Option.some.inj hd'
                    exact hkl (by rw [← hdi', ← h3])
                  refine ⟨d', ?_, hdi', hdg'⟩
                  rw [listSwapRemove_getElem? _ _ _ hpos, if_pos (by omega), if_neg hns]
                  exact hd'
          · -- the removed slot was the last one: no repointing
            have hguard : ¬ se.index < (listSwapRemove s.dense se.index).length := by
              rw [hlen1]; exact hfix
            refine ⟨?_, ?_⟩
            · intro i d hd
              dsimp only at hd ⊢
              rw [if_neg hguard]
              rw [listSwapRemove_getElem? _ _ _ hpos] at hd
              by_cases hi : i < s.dense.length - 1
              · rw [if_pos hi] at hd
                have hie : i ≠ se.index := by omega
                rw [if_neg hie] at hd
                have hm := h1 i d hd
                have hdne : d.index ≠ e.index := by
                  intro hEq
                  rw [hEq, hslot] at hm
                  have h3 := Option.some.inj hm
                  have h4 : se.index = i := congrArg EntityId.index h3
                  omega
                simp only [updSlot, if_neg hdne]
                exact hm
              · rw [if_neg hi] at hd
                cases hd
            · intro k se' hse'
              dsimp only at hse' ⊢
              rw [if_neg hguard] at hse'
              by_cases hke : k = e.index
              · rw [hke] at hse'
                simp only [updSlot, if_pos rfl] at hse'
                cases hse'
              · simp only [updSlot, if_neg hke] at hse'
                obtain ⟨d', hd', hdi', hdg'⟩ := h2 k se' hse'
                have hb' : se'.index < s.dense.length := (List.getElem?_eq_some.mp hd').1
                have hns : se'.index ≠ se.index := by
                  intro hEq
                  rw [hEq, hdOld] at hd'
                  have h3 := Option.some.inj hd'
                  exact hke (by rw [← hdi', ← h3, hdi])
                refine ⟨d', ?_, hdi', hdg'⟩
                rw [listSwapRemove_getElem? _ _ _ hpos, if_pos (by omega), if_neg hns]
                exact hd'
      · next hge => exact ⟨h1, h2⟩

theorem inv_dyn_remove {α : Type} (s : SparseSet α) (e : EntityId) (c : Nat)
    (h : s.Inv) : (s.dyn_remove e c).2.Inv := by
  have hr := inv_actual_remove s e h
  unfold SparseSet.dyn_remove
  dsimp only
  split
  · exact inv_of_eq _ _ rfl rfl hr
  · exact hr

theorem inv_dyn_delete {α : Type} (s : SparseSet α) (e : EntityId) (c : Nat)
    (h : s.Inv) : (s.dyn_delete e c).2.Inv := by
  have hr := inv_actual_remove s e h
  unfold SparseSet.dyn_delete
  split
  · next component s1 heq =>
      have hs1 : s1 = (s.actual_remove e).2 := by rw [heq]
      subst hs1
      split
      · exact inv_of_eq _ _ rfl rfl hr
      · exact hr
  · next s1 heq =>
      have hs1 : s1 = (s.actual_remove e).2 := by rw [heq]
      subst hs1
      exact hr

theorem inv_sort {α : Type} (cmp : α → α → Ordering) (s : SparseSet α)
    (h : s.Inv) : (s.sort_unstable_by cmp).Inv := by
  unfold SparseSet.sort_unstable_by
  dsimp only
  set transform :=
    List.insertionSort (fun i j => sortLe cmp s.data i j = true) (List.range s.dense.length)
  set dense' := ((List.range transform.length).foldl (swapStep transform) (s.dense, s.data)).1
  have hperm : List.Perm dense' s.dense := foldl_swapStep_perm transform _ _
  have H1 : ∀ d ∈ dense', ∃ sl, s.sparse d.index = some sl ∧ sl.gen = d.gen := by
    intro d hdm
    have hmem : d ∈ s.dense := hperm.mem_iff.mp hdm
    obtain ⟨i, hi⟩ := List.mem_iff_getElem?.mp hmem
    exact ⟨⟨i, d.gen⟩, h.1 i d hi, rfl⟩
  have H2 : (dense'.map EntityId.index).Nodup := by
    have hmp : List.Perm (dense'.map EntityId.index) (s.dense.map EntityId.index) :=
      hperm.map _
    exact hmp.nodup_iff.mpr (inv_nodup_index s h)
  refine ⟨?_, ?_⟩
  · intro i d hd
    dsimp only at hd ⊢
    have hval := rewriteSparse_pos dense' s.sparse 0 H1 H2 i d hd
    simpa using hval
  · intro k se hse
    dsimp only at hse ⊢
    by_cases hk : k ∈ dense'.map EntityId.index
    · obtain ⟨d0, hd0m, hd0i⟩ := List.mem_map.mp hk
      obtain ⟨i0, hi0⟩ := List.mem_iff_getElem?.mp hd0m
      have hval := rewriteSparse_pos dense' s.sparse 0 H1 H2 i0 d0 hi0
      rw [hd0i] at hval
      rw [hval] at hse
      have h3 : se = ⟨0 + i0, d0.gen⟩ := (Option.some.inj hse).symm
      subst h3
      refine ⟨d0, ?_, hd0i, rfl⟩
      show dense'[0 + i0]? = some d0
      rw [Nat.zero_add]
      exact hi0
    · rw [rewriteSparse_not_mem dense' s.sparse 0 k hk] at hse
      obtain ⟨d', hd', hdi', hdg'⟩ := h.2 k se hse
      exfalso
      apply hk
      have hmem : d' ∈ s.dense := List.mem_iff_getElem?.mpr ⟨se.index, hd'⟩
      have hmem' : d' ∈ dense' := hperm.mem_iff.mpr hmem
      exact hdi' ▸ List.mem_map_of_mem EntityId.index hmem'

theorem ssreach_inv {α : Type} {s : SparseSet α} (h : SSReach α s) : s.Inv := by
  induction h with
  | empty =>
      refine ⟨?_, ?_⟩
      · intro i d hd
        simp [SparseSet.new] at hd
      · intro k se hse
        simp [SparseSet.new] at hse
  | insert s e v c _ ih => exact inv_insert s e v c ih
  | remove s e c _ ih => exact inv_dyn_remove s e c ih
  | delete s e c _ ih => exact inv_dyn_delete s e c ih
  | sort s cmp _ ih => exact inv_sort cmp s ih

/-! ### Sparse-slot generation lemmas (stale-id reasoning) -/

theorem insert_sparse_le {α : Type} (s : SparseSet α) (e : EntityId) (v : α) (c : Nat)
    (idx : Nat) :
    ∀ se', (s.insert e v c).2.sparse idx = some se' →
      (idx = e.index ∧ se'.gen = e.gen) ∨
      (∃ se0, s.sparse idx = some se0 ∧ se0.gen = se'.gen) := by
  unfold SparseSet.insert
  split
  · next hslot =>
      intro se' hse'
      dsimp only at hse'
      unfold updSlot at hse'
      by_cases hk : idx = e.index
      · rw [if_pos hk] at hse'
        have h3 := Option.some.inj hse'
        exact Or.inl ⟨hk, by rw [← h3]⟩
      · rw [if_neg hk] at hse'
        exact Or.inr ⟨se', hse', rfl⟩
  · next se hslot =>
      split
      · next hge =>
          intro se' hse'
          dsimp only at hse'
          unfold updSlot at hse'
          by_cases hk : idx = e.index
          · rw [if_pos hk] at hse'
            have h3 := Option.some.inj hse'
            exact Or.inl ⟨hk, by rw [← h3]⟩
          · rw [if_neg hk] at hse'
            exact Or.inr ⟨se', hse', rfl⟩
      · next hge =>
          intro se' hse'
          exact Or.inr ⟨se', hse', rfl⟩

theorem actual_remove_sparse_ge {α : Type} (s : SparseSet α) (e : EntityId) (idx : Nat) :
    ∀ se', (s.actual_remove e).2.sparse idx = some se' →
      ∃ se0, s.sparse idx = some se0 ∧ se0.gen = se'.gen := by
  unfold SparseSet.actual_remove
  split
  · next hslot =>
      intro se' hse'
      exact ⟨se', hse', rfl⟩
  · next se hslot =>
      split
      · next hge =>
          intro se' hse'
          dsimp only at hse'
          by_cases hguard : se.index < (listSwapRemove s.dense se.index).length
          · rw [if_pos hguard] at hse'
            simp only [copyIndexAt] at hse'
            by_cases hkl :
                idx = ((listSwapRemove s.dense se.index).getD se.index ⟨0, 0⟩).index
            · rw [if_pos hkl] at hse'
              rw [← hkl] at hse'
              cases hval : updSlot s.sparse e.index none idx with
              | none => rw [hval] at hse'; cases hse'
              | some sl =>
                  rw [hval] at hse'
                  have h3 := Option.some.inj hse'
                  have hglen : sl.gen = se'.gen := by rw [← h3]
                  unfold updSlot at hval
                  by_cases hke : idx = e.index
                  · rw [if_pos hke] at hval; cases hval
                  · rw [if_neg hke] at hval
                    exact ⟨sl, hval, hglen⟩
            · rw [if_neg hkl] at hse'
              unfold updSlot at hse'
              by_cases hke : idx = e.index
              · rw [if_pos hke] at hse'; cases hse'
              · rw [if_neg hke] at hse'
                exact ⟨se', hse', rfl⟩
          · rw [if_neg hguard] at hse'
            unfold updSlot at hse'
            by_cases hke : idx = e.index
            · rw [if_pos hke] at hse'; cases hse'
            · rw [if_neg hke] at hse'
              exact ⟨se', hse', rfl⟩
      · next hge =>
          intro se' hse'
          exact ⟨se', hse', rfl⟩

theorem dyn_remove_sparse_eq {α : Type} (s : SparseSet α) (e : EntityId) (c : Nat) :
    (s.dyn_remove e c).2.sparse = (s.actual_remove e).2.sparse := by
  unfold SparseSet.dyn_remove
  dsimp only
  split
  · rfl
  · rfl

theorem dyn_delete_sparse_eq {α : Type} (s : SparseSet α) (e : EntityId) (c : Nat) :
    (s.dyn_delete e c).2.sparse = (s.actual_remove e).2.sparse := by
  unfold SparseSet.dyn_delete
  split
  · next component s1 heq =>
      have hs1 : s1 = (s.actual_remove e).2 := by rw [heq]
      subst hs1
      split
      · rfl
      · rfl
  · next s1 heq =>
      have hs1 : s1 = (s.actual_remove e).2 := by rw [heq]
      subst hs1
      rfl

/-- After removing `e` (at any sufficient generation), the slot at `e.index`
is dead or records a strictly newer generation than `e`. -/
theorem actual_remove_kills {α : Type} (s : SparseSet α) (e : EntityId) :
    ∀ se', (s.actual_remove e).2.sparse e.index = some se' → e.gen < se'.gen := by
  unfold SparseSet.actual_remove
  split
  · next hslot =>
      intro se' hse'
      rw [hslot] at hse'
      cases hse'
  · next se hslot =>
      split
      · next hge =>
          intro se' hse'
          dsimp only at hse'
          by_cases hguard : se.index < (listSwapRemove s.dense se.index).length
          · rw [if_pos hguard] at hse'
            simp only [copyIndexAt] at hse'
            by_cases hkl :
                e.index = ((listSwapRemove s.dense se.index).getD se.index ⟨0, 0⟩).index
            · rw [if_pos hkl] at hse'
              rw [← hkl] at hse'
              simp only [updSlot, if_pos rfl] at hse'
              cases hse'
            · rw [if_neg hkl] at hse'
              simp only [updSlot, if_pos rfl] at hse'
              cases hse'
          · rw [if_neg hguard] at hse'
            simp only [updSlot, if_pos rfl] at hse'
            cases hse'
      · next hge =>
          intro se' hse'
          rw [hslot] at hse'
          have h3 := Option.some.inj hse'
          rw [← h3]
          omega

/-! ### Queries on a stale id -/

theorem stale_index_of {α : Type} (s : SparseSet α) (e : EntityId)
    (hst : ∀ se, s.sparse e.index = some se → e.gen < se.gen) :
    s.index_of e = none := by
  unfold SparseSet.index_of
  cases hs : s.sparse e.index with
  | none => rfl
  | some se =>
      have hlt := hst se hs
      simp only [Option.some_bind]
      rw [if_neg (by omega)]

theorem stale_contains {α : Type} (s : SparseSet α) (e : EntityId)
    (hst : ∀ se, s.sparse e.index = some se → e.gen < se.gen) :
    s.contains e = false := by
  unfold SparseSet.contains
  rw [stale_index_of s e hst]
  rfl

theorem stale_private_get {α : Type} (s : SparseSet α) (e : EntityId)
    (hst : ∀ se, s.sparse e.index = some se → e.gen < se.gen) :
    s.private_get e = none := by
  unfold SparseSet.private_get
  rw [stale_index_of s e hst]
  rfl

theorem stale_actual_remove {α : Type} (s : SparseSet α) (e : EntityId)
    (hst : ∀ se, s.sparse e.index = some se → e.gen < se.gen) :
    s.actual_remove e = (none, s) := by
  unfold SparseSet.actual_remove
  split
  · rfl
  · next se hslot =>
      have hlt := hst se hslot
      rw [if_neg (by omega)]

theorem stale_dyn_remove {α : Type} (s : SparseSet α) (e : EntityId) (c : Nat)
    (hst : ∀ se, s.sparse e.index = some se → e.gen < se.gen) :
    s.dyn_remove e c = (none, s) := by
  unfold SparseSet.dyn_remove
  rw [stale_actual_remove s e hst]
  simp

/-- `dyn_remove` with a strictly newer generation removes the component but
returns `none` (the generations differ). -/
theorem dyn_remove_newer_none {α : Type} (s : SparseSet α) (e : EntityId) (c : Nat)
    (se : EntityId) (hslot : s.sparse e.index = some se) (hlt : se.gen < e.gen) :
    (s.dyn_remove e c).1 = none := by
  have hfst : (s.actual_remove e).1 = none := by
    unfold SparseSet.actual_remove
    rw [hslot]
    dsimp only
    rw [if_pos (by omega), if_neg (by omega)]
  unfold SparseSet.dyn_remove
  dsimp only
  split
  · exact hfst
  · exact hfst

/-! ### Stale ids are stale forever (world level) -/

theorem staleAt_insert_f {α : Type} (id eid : EntityId) (v : α) (cur : Nat)
    (hgen : eid.index = id.index → id.gen < eid.gen) (s : SparseSet α)
    (hs : ∀ se, s.sparse id.index = some se → id.gen < se.gen) :
    ∀ se', ((s.insert eid v cur).2).sparse id.index = some se' → id.gen < se'.gen := by
  intro se' hse'
  rcases insert_sparse_le s eid v cur id.index se' hse' with ⟨heq, hg⟩ | ⟨se0, hs0, hg0⟩
  · rw [hg]
    exact hgen heq.symm
  · rw [← hg0]
    exact hs se0 hs0

theorem staleAt_remove_f {α : Type} (id eid : EntityId) (s : SparseSet α)
    (hs : ∀ se, s.sparse id.index = some se → id.gen < se.gen) :
    ∀ se', ((s.actual_remove eid).2).sparse id.index = some se' → id.gen < se'.gen := by
  intro se' hse'
  obtain ⟨se0, hs0, hg0⟩ := actual_remove_sparse_ge s eid id.index se' hse'
  rw [← hg0]
  exact hs se0 hs0

theorem staleAt_updateStorage {α : Type} (w : World α) (j : Nat)
    (f : SparseSet α → SparseSet α) (id : EntityId) (h : w.StaleAt id)
    (hf : ∀ s ∈ w.storages, ∀ se', (f s).sparse id.index = some se' → id.gen < se'.gen) :
    (w.updateStorage j f).StaleAt id := by
  unfold World.updateStorage
  split
  · next s0 hs0 =>
      refine ⟨h.1, h.2.1, ?_⟩
      intro s' hs' se' hse'
      rcases List.mem_or_eq_of_mem_set hs' with hmem | heq
      · exact h.2.2 s' hmem se' hse'
      · subst heq
        exact hf s0 (List.mem_iff_getElem?.mpr ⟨j, hs0⟩) se' hse'
  · exact h

theorem staleAt_fold {α : Type} (id eid : EntityId)
    (hgen : eid.index = id.index → id.gen < eid.gen) (comps : List (Nat × α)) :
    ∀ acc : World α, acc.StaleAt id →
      (comps.foldl
        (fun acc jv =>
          { acc.updateStorage jv.1 (fun s => (s.insert eid jv.2 acc.counter).2) with
            counter := acc.counter + 1 })
        acc).StaleAt id := by
  induction comps with
  | nil =>
      intro acc h
      exact h
  | cons jv rest ih =>
      intro acc h
      rw [List.foldl_cons]
      apply ih
      exact staleAt_updateStorage acc jv.1 _ id h
        (fun s _ => staleAt_insert_f id eid jv.2 acc.counter hgen s
          (h.2.2 s (by assumption)))

theorem entities_delete_true (es : Entities) (id : EntityId)
    (h : (es.delete id).1 = true) :
    es.gens[id.index]? = some id.gen ∧
    (es.delete id).2.gens = es.gens.set id.index (id.gen + 1) := by
  cases hg : es.gens[id.index]? with
  | none => simp [Entities.delete, hg] at h
  | some g =>
      by_cases hge : g = id.gen
      · subst hge
        refine ⟨rfl, ?_⟩
        simp [Entities.delete, hg]
      · simp [Entities.delete, hg, hge] at h

theorem entities_delete_gens_length (es : Entities) (id : EntityId) :
    (es.delete id).2.gens.length = es.gens.length := by
  cases hg : es.gens[id.index]? with
  | none => simp [Entities.delete, hg]
  | some g =>
      by_cases hge : g = id.gen
      · simp [Entities.delete, hg, hge]
      · simp [Entities.delete, hg, hge]

theorem entities_delete_getD_mono (es : Entities) (id : EntityId) (idx : Nat) :
    es.gens.getD idx 0 ≤ (es.delete id).2.gens.getD idx 0 := by
  cases hg : es.gens[id.index]? with
  | none => simp [Entities.delete, hg]
  | some g =>
      by_cases hge : g = id.gen
      · subst hge
        have hgens : (es.delete id).2.gens = es.gens.set id.index (id.gen + 1) :=
          (entities_delete_true es id (by simp [Entities.delete, hg])).2
        rw [hgens]
        by_cases hidx : id.index = idx
        · subst hidx
          have hlen : id.index < es.gens.length := (List.getElem?_eq_some.mp hg).1
          rw [List.getD_eq_getElem?_getD, List.getD_eq_getElem?_getD,
            List.getElem?_set, if_pos rfl, if_pos hlen, hg]
          simp
        · rw [List.getD_eq_getElem?_getD, List.getD_eq_getElem?_getD,
            List.getElem?_set, if_neg hidx]
      · simp [Entities.delete, hg, hge]

theorem staleAt_applyWOp {α : Type} (w : World α) (id : EntityId) (op : WOp α)
    (h : w.StaleAt id) : (applyWOp w op).StaleAt id := by
  cases op with
  | addEntity comps =>
      show ((w.addEntity comps).2).StaleAt id
      unfold World.addEntity Entities.generate
      dsimp only
      cases hfree : w.entities.free with
      | cons i rest =>
          dsimp only
          apply staleAt_fold
          · intro hEq
            dsimp only at hEq
            rw [hEq]
            exact h.2.1
          · exact ⟨h.1, h.2.1, h.2.2⟩
      | nil =>
          dsimp only
          apply staleAt_fold
          · intro hEq
            dsimp only at hEq
            have := h.1
            omega
          · refine ⟨?_, ?_, h.2.2⟩
            · show id.index < (w.entities.gens ++ [0]).length
              rw [List.length_append]
              have := h.1
              omega
            · show id.gen < (w.entities.gens ++ [0]).getD id.index 0
              rw [List.getD_eq_getElem?_getD, List.getElem?_append, if_pos h.1]
              have h21 := h.2.1
              rw [List.getD_eq_getElem?_getD] at h21
              exact h21
  | addComponent id' j v =>
      show ((w.addComponent id' j v).getD w).StaleAt id
      unfold World.addComponent
      split
      · next halive =>
          rw [Option.getD_some]
          have hgen : id'.index = id.index → id.gen < id'.gen := by
            intro hEq
            unfold Entities.is_alive at halive
            cases hg : w.entities.gens[id'.index]? with
            | none =>
                rw [hg] at halive
                cases halive
            | some g0 =>
                rw [hg] at halive
                have hg0 : g0 = id'.gen := by simpa using halive
                subst hg0
                have hgd : w.entities.gens.getD id.index 0 = id'.gen := by
                  rw [List.getD_eq_getElem?_getD, ← hEq, hg]
                  rfl
                have h21 := h.2.1
                omega
          exact staleAt_updateStorage w j _ id h
            (fun s hsmem => staleAt_insert_f id id' v w.counter hgen s (h.2.2 s hsmem))
      · next =>
          rw [Option.getD_none]
          exact h
  | removeComponent id' j =>
      show ((w.removeComponent id' j).2).StaleAt id
      unfold World.removeComponent
      split
      · next s0 hs0 =>
          dsimp only
          refine ⟨h.1, h.2.1, ?_⟩
          intro s' hs' se' hse'
          rcases List.mem_or_eq_of_mem_set hs' with hmem | heq
          · exact h.2.2 s' hmem se' hse'
          · subst heq
            rw [dyn_remove_sparse_eq] at hse'
            exact staleAt_remove_f id id' s0
              (h.2.2 s0 (List.mem_iff_getElem?.mpr ⟨j, hs0⟩)) se' hse'
      · exact h
  | deleteEntity id' =>
      show ((w.deleteEntity id').2).StaleAt id
      unfold World.deleteEntity
      dsimp only
      split
      · next hb =>
          refine ⟨?_, ?_, ?_⟩
          · show id.index < (w.entities.delete id').2.gens.length
            rw [entities_delete_gens_length]
            exact h.1
          · show id.gen < (w.entities.delete id').2.gens.getD id.index 0
            exact Nat.lt_of_lt_of_le h.2.1 (entities_delete_getD_mono w.entities id' id.index)
          · intro s' hs' se' hse'
            obtain ⟨s0, hmem, rfl⟩ := List.mem_map.mp hs'
            rw [dyn_delete_sparse_eq] at hse'
            exact staleAt_remove_f id id' s0 (h.2.2 s0 hmem) se' hse'
      · exact h

theorem staleAt_applyWOps {α : Type} (ops : List (WOp α)) (w : World α) (id : EntityId)
    (h : w.StaleAt id) : (applyWOps w ops).StaleAt id := by
  induction ops generalizing w with
  | nil => exact h
  | cons op rest ih =>
      show (applyWOps (applyWOp w op) rest).StaleAt id
      exact ih _ (staleAt_applyWOp w id op h)

theorem deleteEntity_staleAt {α : Type} (w : World α) (id : EntityId)
    (hb : (w.deleteEntity id).1 = true) : ((w.deleteEntity id).2).StaleAt id := by
  have hr : (w.entities.delete id).1 = true := by
    by_contra hneg
    unfold World.deleteEntity at hb
    dsimp only at hb
    rw [if_neg hneg] at hb
    cases hb
  obtain ⟨hg, hgens⟩ := entities_delete_true w.entities id hr
  have hlen : id.index < w.entities.gens.length := (List.getElem?_eq_some.mp hg).1
  unfold World.deleteEntity
  dsimp only
  rw [if_pos hr]
  refine ⟨?_, ?_, ?_⟩
  · show id.index < (w.entities.delete id).2.gens.length
    rw [hgens, List.length_set]
    exact hlen
  · show id.gen < (w.entities.delete id).2.gens.getD id.index 0
    rw [hgens, List.getD_eq_getElem?_getD, List.getElem?_set, if_pos rfl, if_pos hlen]
    simp
  · intro s' hs' se' hse'
    obtain ⟨s0, hmem, rfl⟩ := List.mem_map.mp hs'
    rw [dyn_delete_sparse_eq] at hse'
    exact actual_remove_kills s0 id se' hse'

/-! ### Entity-allocator and world lemmas -/

theorem entities_delete_fst (es : Entities) (id : EntityId) :
    (es.delete id).1 = es.is_alive id := by
  unfold Entities.delete Entities.is_alive
  cases hg : es.gens[id.index]? with
  | none => rfl
  | some g =>
      by_cases hge : g = id.gen
      · subst hge
        simp
      · simp [hge]

theorem is_alive_getElem (es : Entities) (id : EntityId) (h : es.is_alive id = true) :
    es.gens[id.index]? = some id.gen := by
  unfold Entities.is_alive at h
  cases hg : es.gens[id.index]? with
  | none =>
      rw [hg] at h
      cases h
  | some g =>
      rw [hg] at h
      have hgg : g = id.gen := by simpa using h
      subst hgg
      rfl

theorem deleteEntity_not_alive {α : Type} (w : World α) (e : EntityId) :
    ((w.deleteEntity e).2).entities.is_alive e = false := by
  unfold World.deleteEntity
  dsimp only
  by_cases hr : (w.entities.delete e).1 = true
  · rw [if_pos hr]
    obtain ⟨hg, hgens⟩ := entities_delete_true w.entities e hr
    have hlen : e.index < w.entities.gens.length := (List.getElem?_eq_some.mp hg).1
    show (w.entities.delete e).2.is_alive e = false
    unfold Entities.is_alive
    have heq : (w.entities.delete e).2.gens[e.index]? = some (e.gen + 1) := by
      rw [hgens, List.getElem?_set, if_pos rfl, if_pos hlen]
    rw [heq]
    simp
  · rw [if_neg hr]
    show w.entities.is_alive e = false
    rw [← entities_delete_fst]
    cases hb : (w.entities.delete e).1 with
    | false => rfl
    | true => exact absurd hb hr

theorem updateStorage_entities {α : Type} (w : World α) (j : Nat)
    (f : SparseSet α → SparseSet α) : (w.updateStorage j f).entities = w.entities := by
  unfold World.updateStorage
  split
  · rfl
  · rfl

theorem updateStorage_storages_other {α : Type} (w : World α) (j j' : Nat)
    (f : SparseSet α → SparseSet α) (hne : j ≠ j') :
    (w.updateStorage j' f).storages[j]? = w.storages[j]? := by
  unfold World.updateStorage
  split
  · next s0 hs0 =>
      dsimp only
      rw [List.getElem?_set, if_neg (Ne.symm hne)]
  · rfl

theorem removeComponent_entities {α : Type} (w : World α) (e : EntityId) (j : Nat) :
    (w.removeComponent e j).2.entities = w.entities := by
  unfold World.removeComponent
  split
  · rfl
  · rfl

theorem removeComponent_storages_other {α : Type} (w : World α) (e : EntityId)
    (j j' : Nat) (hne : j ≠ j') :
    (w.removeComponent e j').2.storages[j]? = w.storages[j]? := by
  unfold World.removeComponent
  split
  · next s0 hs0 =>
      dsimp only
      rw [List.getElem?_set, if_neg (Ne.symm hne)]
  · rfl

theorem dyn_remove_fst {α : Type} (s : SparseSet α) (e : EntityId) (c : Nat) :
    (s.dyn_remove e c).1 = (s.actual_remove e).1 := by
  unfold SparseSet.dyn_remove
  dsimp only
  split
  · rfl
  · rfl

theorem actual_remove_get {α : Type} (s : SparseSet α) (e : EntityId) (c : α)
    (hc : s.private_get e = some c) : (s.actual_remove e).1 = some c := by
  unfold SparseSet.private_get SparseSet.index_of at hc
  unfold SparseSet.actual_remove
  split
  · next hs =>
      rw [hs] at hc
      simp at hc
  · next se hs =>
      rw [hs] at hc
      simp only [Option.some_bind] at hc
      by_cases hgen : e.gen = se.gen
      · rw [if_pos hgen] at hc
        simp only [Option.some_bind] at hc
        rw [if_pos (by omega)]
        dsimp only
        rw [if_pos hgen]
        exact hc
      · rw [if_neg hgen] at hc
        simp at hc

theorem removeComponent_get {α : Type} (w : World α) (e : EntityId) (j : Nat)
    (s : SparseSet α) (c : α) (hs : w.storages[j]? = some s)
    (hc : s.private_get e = some c) : (w.removeComponent e j).1 = some c := by
  unfold World.removeComponent
  split
  · next s0 hs0 =>
      have hss : s0 = s := by
        rw [hs0] at hs
        exact Option.some.inj hs
      subst hss
      dsimp only
      rw [dyn_remove_fst]
      exact actual_remove_get s0 e c hc
  · next hnone =>
      rw [hnone] at hs
      cases hs

theorem removeComponent_storage_at {α : Type} (w : World α) (e : EntityId) (j : Nat)
    (s : SparseSet α) (hs : w.storages[j]? = some s) :
    (w.removeComponent e j).2.storages[j]? = some ((s.dyn_remove e w.counter).2) := by
  unfold World.removeComponent
  split
  · next s0 hs0 =>
      have hss : s0 = s := by
        rw [hs0] at hs
        exact Option.some.inj hs
      subst hss
      dsimp only
      have hb : j < w.storages.length := (List.getElem?_eq_some.mp hs).1
      rw [List.getElem?_set, if_pos rfl, if_pos hb]
  · next hnone =>
      rw [hnone] at hs
      cases hs

/-- Inserting with an id whose generation dominates the slot makes the
component retrievable (the claim's "fresh entity receives the component"). -/
theorem insert_get_fresh {α : Type} (s : SparseSet α) (e : EntityId) (v : α) (cur : Nat)
    (hlen : s.dense.length = s.data.length)
    (hslot : ∀ se, s.sparse e.index = some se →
      se.index < s.data.length ∧ se.gen ≤ e.gen) :
    ((s.insert e v cur).2).private_get e = some v := by
  unfold SparseSet.insert
  split
  · next hsnone =>
      unfold SparseSet.private_get SparseSet.index_of
      dsimp only
      show ((updSlot s.sparse e.index (some ⟨s.dense.length, e.gen⟩) e.index).bind
        fun se => if e.gen = se.gen then some se.index else none).bind
          (fun i => (s.data ++ [v])[i]?) = some v
      simp only [updSlot, if_true]
      simp only [Option.some_bind]
      show ((if True then some s.dense.length else none).bind
        fun i => (s.data ++ [v])[i]?) = some v
      simp only [if_true, Option.some_bind]
      show (s.data ++ [v])[s.dense.length]? = some v
      rw [List.getElem?_append, if_neg (by omega), hlen]
      simp
  · next se hsl =>
      split
      · next hge =>
          obtain ⟨hb, _⟩ := hslot se hsl
          unfold SparseSet.private_get SparseSet.index_of
          dsimp only
          show ((updSlot s.sparse e.index (some ⟨se.index, e.gen⟩) e.index).bind
            fun se2 => if e.gen = se2.gen then some se2.index else none).bind
              (fun i => (s.data.set se.index v)[i]?) = some v
          simp only [updSlot, if_true]
          simp only [Option.some_bind]
          show ((if True then some se.index else none).bind
            fun i => (s.data.set se.index v)[i]?) = some v
          simp only [if_true, Option.some_bind]
          show (s.data.set se.index v)[se.index]? = some v
          rw [List.getElem?_set, if_pos rfl, if_pos hb]
      · next hge =>
          obtain ⟨_, hle⟩ := hslot se hsl
          exact absurd hle hge

theorem generate_is_alive (es : Entities) (hwf : es.WF) :
    (es.generate).2.is_alive (es.generate).1 = true := by
  unfold Entities.generate
  cases hfree : es.free with
  | cons i rest =>
      dsimp only
      have hi : i < es.gens.length := hwf i (by rw [hfree]; exact List.mem_cons_self i rest)
      unfold Entities.is_alive
      have heq : es.gens[i]? = some es.gens[i] := List.getElem?_eq_getElem hi
      show (match es.gens[i]? with
        | some g => g == es.gens.getD i 0
        | none => false) = true
      rw [heq]
      show (es.gens[i] == es.gens.getD i 0) = true
      rw [List.getD_eq_getElem?_getD, heq]
      simp
  | nil =>
      dsimp only
      unfold Entities.is_alive
      show (match (es.gens ++ [0])[es.gens.length]? with
        | some g => g == (0 : Nat)
        | none => false) = true
      rw [List.getElem?_append, if_neg (by omega)]
      simp

/-! ### Cross-world move lemmas -/

theorem move_component_props {α : Type} (e new : EntityId) (f t : World α) (j' : Nat)
    (halive : t.entities.is_alive new = true) :
    ∃ f' t', move_component e f new t j' = some (f', t') ∧
      f'.entities = f.entities ∧ t'.entities = t.entities ∧
      (∀ j, j ≠ j' → f'.storages[j]? = f.storages[j]?) ∧
      (∀ j, j ≠ j' → t'.storages[j]? = t.storages[j]?) := by
  unfold move_component
  dsimp only
  cases hrem : (f.removeComponent e j').1 with
  | none =>
      exact ⟨(f.removeComponent e j').2, t, rfl, removeComponent_entities f e j', rfl,
        fun j hne => removeComponent_storages_other f e j j' hne, fun j _ => rfl⟩
  | some comp =>
      have hadd : t.addComponent new j' comp =
          some { t.updateStorage j' (fun s => (s.insert new comp t.counter).2) with
                 counter := t.counter + 1 } := by
        unfold World.addComponent
        rw [if_pos halive]
      refine ⟨(f.removeComponent e j').2,
        { t.updateStorage j' (fun s => (s.insert new comp t.counter).2) with
          counter := t.counter + 1 }, ?_,
        removeComponent_entities f e j', ?_,
        fun j hne => removeComponent_storages_other f e j j' hne, ?_⟩
      · show (match t.addComponent new j' comp with
            | some d => some ((f.removeComponent e j').2, d)
            | none => none) =
          some ((f.removeComponent e j').2,
            { t.updateStorage j' (fun s => (s.insert new comp t.counter).2) with
              counter := t.counter + 1 })
        rw [hadd]
      · show (t.updateStorage j' fun s => (s.insert new comp t.counter).2).entities
          = t.entities
        exact updateStorage_entities t j' _
      · intro j hne
        show (t.updateStorage j' fun s => (s.insert new comp t.counter).2).storages[j]?
          = t.storages[j]?
        exact updateStorage_storages_other t j j' _ hne

theorem move_fold_untouched {α : Type} (e new : EntityId) (j : Nat) :
    ∀ L : List Nat, j ∉ L → ∀ f t : World α, t.entities.is_alive new = true →
      ∃ f' t',
        L.foldl (fun acc j2 => acc.bind fun p => move_component e p.1 new p.2 j2)
          (some (f, t)) = some (f', t') ∧
        f'.entities = f.entities ∧ t'.entities = t.entities ∧
        f'.storages[j]? = f.storages[j]? ∧ t'.storages[j]? = t.storages[j]? := by
  intro L
  induction L with
  | nil =>
      intro _ f t _
      exact ⟨f, t, rfl, rfl, rfl, rfl, rfl⟩
  | cons j' rest ih =>
      intro hj f t halive
      have hjj : j ≠ j' := fun hEq => hj (hEq ▸ List.mem_cons_self j' rest)
      have hjrest : j ∉ rest := fun hmem => hj (List.mem_cons_of_mem j' hmem)
      obtain ⟨f1, t1, hmc, hfe, hte, hfo, hto⟩ := move_component_props e new f t j' halive
      rw [List.foldl_cons]
      have hstep : (some (f, t)).bind (fun p => move_component e p.1 new p.2 j')
          = some (f1, t1) := by
        rw [Option.some_bind]
        exact hmc
      rw [hstep]
      have halive1 : t1.entities.is_alive new = true := by
        rw [hte]
        exact halive
      obtain ⟨f', t', hfold, hfe', hte', hfs', hts'⟩ := ih hjrest f1 t1 halive1
      refine ⟨f', t', hfold, hfe'.trans hfe, hte'.trans hte, ?_, ?_⟩
      · rw [hfs', hfo j hjj]
      · rw [hts', hto j hjj]

theorem move_fold_get {α : Type} (e new : EntityId) (j : Nat) (L : List Nat)
    (hmem : j ∈ L) (hnd : L.Nodup) (f t : World α)
    (halive : t.entities.is_alive new = true)
    (sj : SparseSet α) (c : α)
    (hsj : f.storages[j]? = some sj) (hc : sj.private_get e = some c)
    (tj : SparseSet α) (htj : t.storages[j]? = some tj)
    (hlen : tj.dense.length = tj.data.length)
    (hslot : ∀ se, tj.sparse new.index = some se →
      se.index < tj.data.length ∧ se.gen ≤ new.gen) :
    ∃ f' t',
      L.foldl (fun acc j2 => acc.bind fun p => move_component e p.1 new p.2 j2)
        (some (f, t)) = some (f', t') ∧
      f'.entities = f.entities ∧ t'.entities = t.entities ∧
      (∀ s', f'.storages[j]? = some s' → s'.contains e = false) ∧
      t'.getComp new j = some c := by
  obtain ⟨L1, L2, rfl⟩ := List.append_of_mem hmem
  rw [List.nodup_append] at hnd
  obtain ⟨hndL1, hndj2, hdisj⟩ := hnd
  have hj1 : j ∉ L1 := fun hmemL1 => hdisj hmemL1 (List.mem_cons_self j L2)
  have hj2 : j ∉ L2 := (List.nodup_cons.mp hndj2).1
  rw [List.foldl_append]
  obtain ⟨f1, t1, hfold1, hfe1, hte1, hfs1, hts1⟩ :=
    move_fold_untouched e new j L1 hj1 f t halive
  rw [hfold1, List.foldl_cons]
  have halive1 : t1.entities.is_alive new = true := by
    rw [hte1]
    exact halive
  have hsj1 : f1.storages[j]? = some sj := by
    rw [hfs1]
    exact hsj
  have htj1 : t1.storages[j]? = some tj := by
    rw [hts1]
    exact htj
  have hrem1 : (f1.removeComponent e j).1 = some c := removeComponent_get f1 e j sj c hsj1 hc
  have hremst : (f1.removeComponent e j).2.storages[j]?
      = some ((sj.dyn_remove e f1.counter).2) := removeComponent_storage_at f1 e j sj hsj1
  have hadd : t1.addComponent new j c =
      some { t1.updateStorage j (fun s => (s.insert new c t1.counter).2) with
             counter := t1.counter + 1 } := by
    unfold World.addComponent
    rw [if_pos halive1]
  have hmc : move_component e f1 new t1 j =
      some ((f1.removeComponent e j).2,
        { t1.updateStorage j (fun s => (s.insert new c t1.counter).2) with
          counter := t1.counter + 1 }) := by
    unfold move_component
    dsimp only
    rw [hrem1]
    show (match t1.addComponent new j c with
        | some d => some ((f1.removeComponent e j).2, d)
        | none => none) =
      some ((f1.removeComponent e j).2,
        { t1.updateStorage j (fun s => (s.insert new c t1.counter).2) with
          counter := t1.counter + 1 })
    rw [hadd]
  have hstep : (some (f1, t1)).bind (fun p => move_component e p.1 new p.2 j)
      = some ((f1.removeComponent e j).2,
        { t1.updateStorage j (fun s => (s.insert new c t1.counter).2) with
          counter := t1.counter + 1 }) := by
    rw [Option.some_bind]
    exact hmc
  rw [hstep]
  have halive2 :
      ({ t1.updateStorage j (fun s => (s.insert new c t1.counter).2) with
         counter := t1.counter + 1 } : World α).entities.is_alive new = true := by
    show (t1.updateStorage j fun s => (s.insert new c t1.counter).2).entities.is_alive new
      = true
    rw [updateStorage_entities]
    exact halive1
  obtain ⟨f', t', hfold2, hfe2, hte2, hfs2, hts2⟩ :=
    move_fold_untouched e new j L2 hj2 (f1.removeComponent e j).2
      { t1.updateStorage j (fun s => (s.insert new c t1.counter).2) with
        counter := t1.counter + 1 } halive2
  have hb1 : j < t1.storages.length := (List.getElem?_eq_some.mp htj1).1
  have ht2j : ({ t1.updateStorage j (fun s => (s.insert new c t1.counter).2) with
      counter := t1.counter + 1 } : World α).storages[j]?
      = some ((tj.insert new c t1.counter).2) := by
    show (t1.updateStorage j fun s => (s.insert new c t1.counter).2).storages[j]?
      = some ((tj.insert new c t1.counter).2)
    unfold World.updateStorage
    split
    · next s0 hs0 =>
        have hss : s0 = tj := by
          rw [hs0] at htj1
          exact Option.some.inj htj1
        subst hss
        dsimp only
        rw [List.getElem?_set, if_pos rfl, if_pos hb1]
    · next hnone =>
        rw [hnone] at htj1
        cases htj1
  refine ⟨f', t', hfold2, ?_, ?_, ?_, ?_⟩
  · rw [hfe2]
    show (f1.removeComponent e j).2.entities = f.entities
    rw [removeComponent_entities]
    exact hfe1
  · rw [hte2]
    show (t1.updateStorage j fun s => (s.insert new c t1.counter).2).entities = t.entities
    rw [updateStorage_entities]
    exact hte1
  · intro s' hs'
    rw [hfs2, hremst] at hs'
    have hss : s' = (sj.dyn_remove e f1.counter).2 := (Option.some.inj hs').symm
    subst hss
    refine stale_contains _ e ?_
    intro se hse
    rw [dyn_remove_sparse_eq] at hse
    exact actual_remove_kills sj e se hse
  · unfold World.getComp
    rw [hts2, ht2j]
    simp only [Option.some_bind]
    exact insert_get_fresh tj new c t1.counter hlen hslot

theorem generate_gen_getD (es : Entities) :
    (es.generate).1.gen = es.gens.getD (es.generate).1.index 0 := by
  unfold Entities.generate
  cases hfree : es.free with
  | cons i rest => rfl
  | nil =>
      show (0 : Nat) = es.gens.getD es.gens.length 0
      rw [List.getD_eq_getElem?_getD]
      have : es.gens[es.gens.length]? = none := by
        rw [List.getElem?_eq_none_iff]
      rw [this]
      rfl

theorem deleteEntity_contains_false {α : Type} (w : World α) (e : EntityId) (j : Nat)
    (hpre : ∀ s', w.storages[j]? = some s' → s'.contains e = false) :
    ∀ s', ((w.deleteEntity e).2).storages[j]? = some s' → s'.contains e = false := by
  unfold World.deleteEntity
  dsimp only
  split
  · next hr =>
      intro s' hs'
      rw [List.getElem?_map] at hs'
      obtain ⟨s0, hs0, rfl⟩ := Option.map_eq_some'.mp hs'
      refine stale_contains _ e ?_
      intro se hse
      rw [dyn_delete_sparse_eq] at hse
      exact actual_remove_kills s0 e se hse
  · next hr => exact hpre

/-! ### Borrow-cell protocol lemmas -/

theorem try_borrow_char (s : Nat) (hs : s + 1 < USIZE_MOD) :
    (HIGH_BIT ≤ s + 1 → (try_borrow s).1 ≠ BorrowOutcome.okShared) ∧
    (¬ HIGH_BIT ≤ s + 1 → try_borrow s = (BorrowOutcome.okShared, s + 1)) := by
  have hmod : (s + 1) % USIZE_MOD = s + 1 := Nat.mod_eq_of_lt hs
  unfold try_borrow
  dsimp only
  rw [hmod]
  constructor
  · intro hhb
    rw [if_pos hhb]
    unfold try_recover
    by_cases h1 : s + 1 = HIGH_BIT
    · rw [if_pos h1]
      intro hc
      cases hc
    · rw [if_neg h1]
      by_cases h2 : MAX_FAILED_BORROWS ≤ s + 1
      · rw [if_pos h2]
        intro hc
        cases hc
      · rw [if_neg h2]
        intro hc
        cases hc
  · intro hhb
    rw [if_neg hhb]

theorem highbit_lt_mod : HIGH_BIT < USIZE_MOD := by
  norm_num [HIGH_BIT, USIZE_MOD]

theorem borrowReach_inv {n : Nat} {u : Bool} {s : Nat} (h : BorrowReach n u s) :
    (u = false → s = n ∧ n < HIGH_BIT) ∧ (u = true → s = HIGH_BIT ∧ n = 0) := by
  induction h with
  | base =>
      refine ⟨fun _ => ⟨rfl, ?_⟩, fun hu => by cases hu⟩
      norm_num [HIGH_BIT]
  | @grantShared m t hrs hok ih =>
      obtain ⟨hs, hn⟩ := ih.1 rfl
      subst hs
      have hlt : t + 1 < USIZE_MOD := by
        have := highbit_lt_mod
        omega
      by_cases hhb : HIGH_BIT ≤ t + 1
      · exact absurd hok ((try_borrow_char t hlt).1 hhb)
      · have heq := (try_borrow_char t hlt).2 hhb
        rw [heq]
        exact ⟨fun _ => ⟨rfl, by omega⟩, fun hu => by cases hu⟩
  | @grantUnique m t hrs hok ih =>
      obtain ⟨hs, hn⟩ := ih.1 rfl
      subst hs
      have hn0 : t = 0 := by
        unfold try_borrow_mut at hok
        by_cases h0 : t = 0
        · exact h0
        · rw [if_neg h0] at hok
          cases hok
      constructor
      · intro hf
        cases hf
      · intro hu2
        refine ⟨?_, hn0⟩
        unfold try_borrow_mut
        rw [if_pos hn0]
  | @dropShared m v t hrs ih =>
      constructor
      · intro hu
        subst hu
        obtain ⟨hs, hn⟩ := ih.1 rfl
        subst hs
        refine ⟨?_, by omega⟩
        unfold releaseShared
        have h2 : m + 1 + (USIZE_MOD - 1) = m + USIZE_MOD := by
          have : 1 ≤ USIZE_MOD := by norm_num [USIZE_MOD]
          omega
        rw [h2, Nat.add_mod_right]
        have := highbit_lt_mod
        exact Nat.mod_eq_of_lt (by omega)
      · intro hu
        subst hu
        obtain ⟨_, hcontra⟩ := ih.2 rfl
        exact absurd hcontra (by omega)
  | @dropUnique m t hrs ih =>
      obtain ⟨hs, hn0⟩ := ih.2 rfl
      subst hn0
      subst hs
      refine ⟨fun _ => ⟨rfl, ?_⟩, fun hu => by cases hu⟩
      norm_num [HIGH_BIT]

/-! ### The claims -/

/-- C1: for every sparse set reachable from the empty set by `insert`,
`dyn_remove`, `dyn_delete` and `sort_unstable_by` (with arbitrary arguments),
every dense entry `d` at position `i` has its sparse slot pointing back at
position `i` with the same generation: `sparse[dense[i].index] = (i,
dense[i].gen)`. -/
theorem c1_mirror_invariant {α : Type} (s : SparseSet α) (h : SSReach α s) :
    ∀ i d, s.dense[i]? = some d → s.sparse d.index = some ⟨i, d.gen⟩ :=
  (ssreach_inv h).1

theorem c1_mirror_invariant_witness : exStorage.sparse 0 = some ⟨0, 0⟩ :=
  c1_mirror_invariant exStorage
    (SSReach.insert SparseSet.new ⟨0, 0⟩ 7 0 SSReach.empty) 0 ⟨0, 0⟩ rfl

/-- C2: the length invariant `dense.len = insertion_data.len` /
`dense.len = modification_data.len` under enabled tracking is NOT preserved:
`private_clear` empties `dense` and `insertion_data` but leaves
`modification_data` untouched, and `private_drain` empties `dense` but leaves
`insertion_data` untouched, so one tracked insert followed by a clear (or
drain) leaves an empty `dense` next to a one-entry timestamp buffer. -/
theorem c2_length_invariant_fails :
    c2state.is_tracking_modification = true ∧
    c2state.dense.length = 0 ∧
    c2state.modification_data.length = 1 ∧
    c2state2.is_tracking_insertion = true ∧
    c2state2.dense.length = 0 ∧
    c2state2.insertion_data.length = 1 :=
  ⟨rfl, rfl, rfl, rfl, rfl, rfl⟩

/-- C3: with the sparse slot at `e.index` recording `se`: on an exact
generation match `insert` replaces the stored component, repoints the slot,
sets `modification_data` at the recorded position to the tick when
modification tracking is on, and returns the old component (`some` whenever
the recorded position is in bounds); with `e`'s generation strictly older it
returns `none` and leaves the storage untouched. -/
theorem c3_insert_semantics {α : Type} (s : SparseSet α) (e : EntityId) (v : α)
    (cur : Nat) (se : EntityId) (hslot : s.sparse e.index = some se) :
    (e.gen = se.gen →
      s.insert e v cur =
        (s.data[se.index]?,
          { s with
            data := s.data.set se.index v
            sparse := updSlot s.sparse e.index (some ⟨se.index, e.gen⟩)
            modification_data :=
              if s.is_tracking_modification then s.modification_data.set se.index cur
              else s.modification_data
            dense := s.dense.set se.index ⟨e.index, e.gen⟩ })) ∧
    (e.gen = se.gen → se.index < s.data.length → (s.insert e v cur).1.isSome = true) ∧
    (e.gen < se.gen → s.insert e v cur = (none, s)) := by
  have hle : ∀ _ : e.gen = se.gen,
      s.insert e v cur =
        (s.data[se.index]?,
          { s with
            data := s.data.set se.index v
            sparse := updSlot s.sparse e.index (some ⟨se.index, e.gen⟩)
            modification_data :=
              if s.is_tracking_modification then s.modification_data.set se.index cur
              else s.modification_data
            dense := s.dense.set se.index ⟨e.index, e.gen⟩ }) := by
    intro hg
    unfold SparseSet.insert
    split
    · next hnone =>
        rw [hnone] at hslot
        cases hslot
    · next se2 hse2 =>
        rw [hslot] at hse2
        have h2 : se2 = se := (Option.some.inj hse2).symm
        subst h2
        rw [if_pos (by omega), if_pos hg]
  have hstale : e.gen < se.gen → s.insert e v cur = (none, s) := by
    intro hlt
    unfold SparseSet.insert
    split
    · next hnone =>
        rw [hnone] at hslot
        cases hslot
    · next se2 hse2 =>
        rw [hslot] at hse2
        have h2 : se2 = se := (Option.some.inj hse2).symm
        subst h2
        rw [if_neg (by omega)]
  refine ⟨hle, ?_, hstale⟩
  intro hg hb
  rw [hle hg]
  dsimp only
  rw [List.getElem?_eq_getElem hb]
  rfl

theorem c3_insert_semantics_witness :
    (exStorage.insert ⟨0, 0⟩ 9 3).1 = some 7 ∧
    exStorageG1.insert ⟨0, 0⟩ 9 3 = (none, exStorageG1) := by
  constructor
  · have h := (c3_insert_semantics exStorage ⟨0, 0⟩ 9 3 ⟨0, 0⟩ rfl).1 rfl
    rw [h]
    rfl
  · exact (c3_insert_semantics exStorageG1 ⟨0, 0⟩ 9 3 ⟨0, 1⟩ rfl).2.2 (by decide)

/-- C4: along every run of the borrow protocol, an exclusive borrow never
coexists with any other borrow: `try_borrow_mut` succeeds only on a zero state
word, `try_borrow` never grants a shared borrow while the exclusive bit is
set, and once every granted borrow has been released (no shared borrows
outstanding, the exclusive borrow dropped) the state word is zero again. -/
theorem c4_borrow_exclusivity (n : Nat) (u : Bool) (s : Nat) (h : BorrowReach n u s) :
    ((try_borrow_mut s).1 = BorrowOutcome.okUnique → s = 0) ∧
    (HIGH_BIT ≤ s → (try_borrow s).1 ≠ BorrowOutcome.okShared) ∧
    (n = 0 → u = false → s = 0) := by
  have inv := borrowReach_inv h
  refine ⟨?_, ?_, ?_⟩
  · intro hok
    by_cases h0 : s = 0
    · exact h0
    · unfold try_borrow_mut at hok
      rw [if_neg h0] at hok
      cases hok
  · intro hhb
    cases u with
    | false =>
        obtain ⟨hs, hn⟩ := inv.1 rfl
        exact absurd hhb (by omega)
    | true =>
        obtain ⟨hs, hn⟩ := inv.2 rfl
        subst hs
        have hlt : HIGH_BIT + 1 < USIZE_MOD := by norm_num [HIGH_BIT, USIZE_MOD]
        exact (try_borrow_char HIGH_BIT hlt).1 (by omega)
  · intro hn hu
    have hsn := (inv.1 hu).1
    omega

theorem c4_borrow_exclusivity_witness :
    (try_borrow (try_borrow_mut 0).2).1 ≠ BorrowOutcome.okShared := by
  have h := c4_borrow_exclusivity 0 true (try_borrow_mut 0).2
    (BorrowReach.grantUnique BorrowReach.base rfl)
  exact h.2.1 (by decide)

/-- C5: once `delete_entity(id)` has returned `true`, after ANY further
sequence of world operations (entity creation — possibly reusing `id`'s index
slot at a higher generation — component insertion, removal, entity deletion),
every `get`, `contains` and `remove` for the exact id returns
`none`/`false`/`none` on every storage of the world. -/
theorem c5_stale_forever {α : Type} (w : World α) (id : EntityId)
    (hdel : (w.deleteEntity id).1 = true) (ops : List (WOp α)) (j : Nat) (c : Nat)
    (s : SparseSet α)
    (hs : (applyWOps (w.deleteEntity id).2 ops).storages[j]? = some s) :
    s.private_get id = none ∧ s.contains id = false ∧
    (s.dyn_remove id c).1 = none := by
  have hstale := staleAt_applyWOps ops (w.deleteEntity id).2 id (deleteEntity_staleAt w id hdel)
  have hmem : s ∈ (applyWOps (w.deleteEntity id).2 ops).storages :=
    List.mem_iff_getElem?.mpr ⟨j, hs⟩
  have hst : ∀ se, s.sparse id.index = some se → id.gen < se.gen :=
    fun se hse => hstale.2.2 s hmem se hse
  refine ⟨stale_private_get s id hst, stale_contains s id hst, ?_⟩
  rw [stale_dyn_remove s id c hst]

theorem c5_stale_forever_witness :
    ((exWorldA.deleteEntity ⟨0, 0⟩).2.storages.getD 0 SparseSet.new).private_get ⟨0, 0⟩
      = none ∧
    ((exWorldA.deleteEntity ⟨0, 0⟩).2.storages.getD 0 SparseSet.new).contains ⟨0, 0⟩
      = false ∧
    (((exWorldA.deleteEntity ⟨0, 0⟩).2.storages.getD 0 SparseSet.new).dyn_remove ⟨0, 0⟩
      5).1 = none :=
  c5_stale_forever exWorldA ⟨0, 0⟩ rfl [] 0 5
    ((exWorldA.deleteEntity ⟨0, 0⟩).2.storages.getD 0 SparseSet.new) rfl

/-- C6 (amended): a deletion/removal log entry at tick `t` is kept by the
timestamp clears iff `(timestamp - (t - HALF_RANGE)) mod 2^32` lies in
`[0, HALF_RANGE]` — equivalently iff `(t - timestamp) mod 2^32 ≤ HALF_RANGE`,
i.e. exactly the entries whose tick is at or after (younger than) the cutoff
under wraparound-safe comparison are retained.  The claim's formula
`(t - (timestamp - HALF_RANGE)) mod 2^32 ∈ [0, HALF_RANGE]` has the wrapping
subtraction's operands swapped and would retain the opposite (older) side;
see the counterexample. -/
theorem c6_retention {α : Type} (s : SparseSet α) (timestamp : Nat) :
    (s.clear_all_deleted_older_than_timestamp timestamp).deletion_data =
      s.deletion_data.filter
        (fun e => decide (u32sub timestamp (u32sub e.2.1 u32Half) ≤ u32Half)) ∧
    (s.clear_all_removed_older_than_timestamp timestamp).removal_data =
      s.removal_data.filter
        (fun e => decide (u32sub timestamp (u32sub e.2 u32Half) ≤ u32Half)) := by
  have key : ∀ t : Nat, is_track_within_bounds timestamp (u32sub t u32Half) t
      = decide (u32sub timestamp (u32sub t u32Half) ≤ u32Half) := by
    intro t
    unfold is_track_within_bounds
    by_cases hA : u32sub timestamp (u32sub t u32Half) ≤ u32Half
    · have hB : u32sub t timestamp ≤ u32Half := by
        unfold u32sub u32Half at hA ⊢
        omega
      simp [hA, hB]
    · simp [hA]
  constructor
  · unfold SparseSet.clear_all_deleted_older_than_timestamp
    dsimp only
    exact List.filter_congr (fun x _ => key x.2.1)
  · unfold SparseSet.clear_all_removed_older_than_timestamp
    dsimp only
    exact List.filter_congr (fun x _ => key x.2)

/-- C6, the claimed formula refuted: with cutoff timestamp 5, an entry logged
at tick 6 (younger than the cutoff) is retained by both timestamp clears,
while the claim's formula `(t - (timestamp - HALF_RANGE)) mod 2^32 ∈
[0, HALF_RANGE]` is false at `t = 6, timestamp = 5`, so it would drop that
entry. -/
theorem c6_retention_counterexample :
    (exLogStorage.clear_all_deleted_older_than_timestamp 5).deletion_data =
      [(⟨0, 0⟩, 6, 42)] ∧
    (exLogStorage.clear_all_removed_older_than_timestamp 5).removal_data =
      [(⟨0, 0⟩, 6)] ∧
    ¬ (u32sub 6 (u32sub 5 u32Half) ≤ u32Half) :=
  ⟨rfl, rfl, by decide⟩

/-- C7: `move_entity e f t` allocates a fresh empty entity in the destination
world `t`, moves every component of `e` found in a registered storage over to
that entity, deletes `e` in the source world and returns the new id;
afterwards `e` is no longer alive in the source, the moved component is gone
from the source storage, and it is found on the new entity in the
destination. -/
theorem c7_move_entity {α : Type} (e : EntityId) (f t : World α)
    (hwf : t.entities.WF) (hnd : f.registry.Nodup)
    (j : Nat) (hjreg : j ∈ f.registry)
    (sj : SparseSet α) (hsj : f.storages[j]? = some sj)
    (c : α) (hc : sj.private_get e = some c)
    (tj : SparseSet α) (htj : t.storages[j]? = some tj)
    (hlen : tj.dense.length = tj.data.length)
    (hslot : ∀ se, tj.sparse (t.addEntity []).1.index = some se →
      se.index < tj.data.length ∧ se.gen ≤ (t.addEntity []).1.gen) :
    ∃ f2 t2,
      move_entity e f t = some ((t.addEntity []).1, f2, t2) ∧
      f2.entities.is_alive e = false ∧
      (∀ s2, f2.storages[j]? = some s2 → s2.contains e = false) ∧
      t2.getComp (t.addEntity []).1 j = some c := by
  have halive : (t.addEntity []).2.entities.is_alive (t.addEntity []).1 = true :=
    generate_is_alive t.entities hwf
  obtain ⟨f1, t1, hfold, hfe, hte, hcont, hget⟩ :=
    move_fold_get e (t.addEntity []).1 j f.registry hjreg hnd f (t.addEntity []).2 halive
      sj c hsj hc tj htj hlen hslot
  refine ⟨(f1.deleteEntity e).2, t1, ?_, deleteEntity_not_alive f1 e,
    deleteEntity_contains_false f1 e j hcont, hget⟩
  show (match
      f.registry.foldl
        (fun acc j2 => acc.bind fun p => move_component e p.1 (t.addEntity []).1 p.2 j2)
        (some (f, (t.addEntity []).2)) with
    | some p => some ((t.addEntity []).1, (p.1.deleteEntity e).2, p.2)
    | none => none) = some ((t.addEntity []).1, (f1.deleteEntity e).2, t1)
  rw [hfold]

theorem c7_move_entity_witness :
    ∃ f2 t2,
      move_entity ⟨0, 0⟩ exWorldA exWorldB = some ((exWorldB.addEntity []).1, f2, t2) ∧
      f2.entities.is_alive ⟨0, 0⟩ = false ∧
      (∀ s2, f2.storages[0]? = some s2 → s2.contains ⟨0, 0⟩ = false) ∧
      t2.getComp (exWorldB.addEntity []).1 0 = some 42 :=
  c7_move_entity ⟨0, 0⟩ exWorldA exWorldB
    (fun i hi => absurd hi (List.not_mem_nil i))
    (by decide) 0 (by decide)
    ((SparseSet.new.insert ⟨0, 0⟩ 42 0).2) rfl
    42 rfl
    SparseSet.new rfl
    rfl
    (fun se h => Option.noConfusion h)

/-- C8: on an entity id that is not alive, `add_component` panics (modelled as
`none`) while `delete_entity` does not: it returns `false` and leaves the
world unchanged; and in general `delete_entity` returns `true` exactly when
the entity was alive before the call. -/
theorem c8_dead_entity_handling {α : Type} (w : World α) (id : EntityId) (j : Nat)
    (v : α) (hdead : w.entities.is_alive id = false) :
    w.addComponent id j v = none ∧
    w.deleteEntity id = (false, w) ∧
    (∀ (w2 : World α) (id2 : EntityId),
      (w2.deleteEntity id2).1 = w2.entities.is_alive id2) := by
  refine ⟨?_, ?_, ?_⟩
  · simp [World.addComponent, hdead]
  · have hfst : (w.entities.delete id).1 = false := by
      rw [entities_delete_fst, hdead]
    simp [World.deleteEntity, hfst]
  · intro w2 id2
    unfold World.deleteEntity
    dsimp only
    rw [← entities_delete_fst]
    by_cases hb : (w2.entities.delete id2).1 = true
    · rw [if_pos hb, hb]
    · rw [if_neg hb]
      have hf : (w2.entities.delete id2).1 = false := by
        cases h2 : (w2.entities.delete id2).1
        · rfl
        · exact absurd h2 hb
      rw [hf]

theorem c8_dead_entity_handling_witness :
    exWorldB.addComponent ⟨0, 0⟩ 0 7 = none ∧
    exWorldB.deleteEntity ⟨0, 0⟩ = (false, exWorldB) := by
  have h := c8_dead_entity_handling exWorldB ⟨0, 0⟩ 0 7 rfl
  exact ⟨h.1, h.2.1⟩

/-- C9: with an exclusive borrow held (state word `HIGH_BIT`, granted by
`try_borrow_mut` on the idle cell), a shared borrow attempt reports the
`Shared` conflict error and hands the state word back unchanged; after the
exclusive borrow is dropped (`store 0`), the same attempt succeeds. -/
theorem c9_shared_after_exclusive :
    (try_borrow_mut 0).1 = BorrowOutcome.okUnique ∧
    (try_borrow (try_borrow_mut 0).2).1 = BorrowOutcome.errShared ∧
    (try_borrow (try_borrow_mut 0).2).2 = (try_borrow_mut 0).2 ∧
    try_borrow (releaseUnique (try_borrow_mut 0).2) = (BorrowOutcome.okShared, 1) :=
  ⟨rfl, by decide, by decide, by decide⟩

/-- C10: removing with an id whose index matches a stored component but whose
generation is strictly greater removes the component — the previously stored
id `(e.index, se.gen)` is no longer contained afterwards — yet the call
returns `none` instead of the removed component. -/
theorem c10_remove_newer_gen {α : Type} (s : SparseSet α) (e : EntityId) (c : Nat)
    (se : EntityId) (hslot : s.sparse e.index = some se) (hlt : se.gen < e.gen) :
    (s.dyn_remove e c).1 = none ∧
    ((s.dyn_remove e c).2).contains ⟨e.index, se.gen⟩ = false := by
  constructor
  · exact dyn_remove_newer_none s e c se hslot hlt
  · refine stale_contains _ ⟨e.index, se.gen⟩ ?_
    intro se2 hse2
    rw [dyn_remove_sparse_eq] at hse2
    have hk := actual_remove_kills s e se2 hse2
    show se.gen < se2.gen
    omega

theorem c10_remove_newer_gen_witness :
    (exStorageG1.dyn_remove ⟨0, 2⟩ 4).1 = none ∧
    ((exStorageG1.dyn_remove ⟨0, 2⟩ 4).2).contains ⟨0, 1⟩ = false :=
  c10_remove_newer_gen exStorageG1 ⟨0, 2⟩ 4 ⟨0, 1⟩ rfl (by decide)
